import Mathlib

/-!
# Resumable, checksum-verified integer stream (Ably.cc, common.h, tcp_util.h)

A shallow embedding of the session/resume protocol of the repository:

* `Common.ComputeChecksum`                      (common.h)
* `Protocal.*`  wire messages                   (Ably.cc, namespace Protocal)
* `FaultInjection.*`                            (Ably.cc, namespace FaultInjection)
* `Server.SharedState` and its operations       (Ably.cc, class SharedState)
* `Server.ProcessTransmission`                  (LocalClientState::ProcessTransmission)
* `Client.ProcessTransmission`, `Client.main`   (Ably.cc, namespace Client)

Conventions.  A `uint32_t` is a `Nat` reduced `% 2^32` wherever the C++ arithmetic
can wrap.  A `std::string` is a list of bytes.  A time point of
`std::chrono::system_clock` is an `Int` counting nanoseconds since the clock epoch,
so the default constructed time point is `0`.  Random devices, the clock and the
socket are oracles passed in as arguments.
-/

/-- The modulus of `uint32_t` arithmetic. -/
abbrev U32 : Nat := 4294967296

namespace Common

/-- One iteration of the loop body of `ComputeChecksum`:
`seed ^= i + 0x9e3779b9 + (seed << 6) + (seed >> 2)` on `uint32_t`. -/
def mix (seed i : Nat) : Nat :=
  seed ^^^ ((i + 0x9e3779b9 + (seed <<< 6) % U32 + (seed >>> 2)) % U32)

/-- The range-for loop of `ComputeChecksum`, with the running `seed`. -/
def checksumLoop : Nat → List Nat → Nat
  | seed, [] => seed
  | seed, i :: rest => checksumLoop (mix seed i) rest

/-- `Common::ComputeChecksum` (common.h): `uint32_t seed = vec.size()`, then the loop. -/
def ComputeChecksum (vec : List Nat) : Nat :=
  checksumLoop (vec.length % U32) vec

/-- The checksum as the specification words it: a left fold, from the seed
`length_of_sequence`, of `seed XOR (v + 0x9e3779b9 + (seed << 6) + (seed >> 2))`
with every addition and shift taken modulo `2^32`. -/
def checksumSpec (vs : List Nat) : Nat :=
  vs.foldl
    (fun seed v => seed ^^^ ((v + 0x9e3779b9 + (seed <<< 6) % 2 ^ 32 + (seed >>> 2)) % 2 ^ 32))
    (vs.length % 2 ^ 32)

end Common

namespace Protocal

/-- `struct LoginRequest`: `char uuid[40]`, `uint32_t N`, `uint32_t packets_seen`. -/
structure LoginRequest where
  uuid : List (Fin 256)
  N : Nat
  packets_seen : Nat
  deriving DecidableEq

/-- `struct LoginConfirmed`. -/
structure LoginConfirmed where
  sending_from : Nat
  sending_total : Nat
  deriving DecidableEq

/-- `struct DataPacket`. -/
structure DataPacket where
  payload : Nat
  deriving DecidableEq

/-- `struct DataComplete`. -/
structure DataComplete where
  checksum : Nat
  deriving DecidableEq

/-- What the server writes with `conn.SendN`: one of the three server-to-client structs. -/
inductive Message where
  | loginConfirmed (m : LoginConfirmed)
  | dataPacket (m : DataPacket)
  | dataComplete (m : DataComplete)
  deriving DecidableEq

/-- The raw image of a message on the wire, as a sequence of 32-bit words
(`stream.SendN(sizeof(T), &t)`): both peers use the same host layout. -/
def Message.words : Message → List Nat
  | .loginConfirmed m => [m.sending_from, m.sending_total]
  | .dataPacket m => [m.payload]
  | .dataComplete m => [m.checksum]

/-- The word stream produced by a sequence of sends. -/
def wire : List Message → List Nat
  | [] => []
  | m :: rest => m.words ++ wire rest

end Protocal

namespace FaultInjection

/-- The two process-wide knobs together with the outcomes of the random draws:
`conn_draw k` is `dist(rng)` in the `k`-th call of `FlakyConnection`, `data_draw k`
holds the two successive `dist(rng)` values available to the `k`-th call of
`FlakyData`. -/
structure Faults where
  g_flaky_connection : Int
  g_flaky_data : Int
  conn_draw : Nat → Int
  data_draw : Nat → Int × Int

/-- `FaultInjection::FlakyConnection`, at its `k`-th call. -/
def FlakyConnection (f : Faults) (k : Nat) : Bool :=
  if f.g_flaky_connection ≠ 0 then
    if f.conn_draw k = 1 then true else false
  else false

/-- `FaultInjection::FlakyData`, at its `k`-th call; the `int` drawn is returned as
`uint32_t`. -/
def FlakyData (f : Faults) (k : Nat) : Nat :=
  if f.g_flaky_data ≠ 0 then
    if (f.data_draw k).1 = 1 then ((f.data_draw k).2 % (U32 : Int)).toNat else 0
  else 0

/-- Fault injection switched off: both knobs at their initial value `0`. -/
def disabled : Faults :=
  { g_flaky_connection := 0, g_flaky_data := 0, conn_draw := fun _ => 0,
    data_draw := fun _ => (0, 0) }

end FaultInjection

namespace Server

/-- `Time = std::chrono::time_point<system_clock>`, nanoseconds since the epoch. -/
abbrev Time := Int

/-- The duration literal `30s`. -/
def thirty_seconds : Int := 30000000000

/-- `SharedState::ConnectionState`. -/
structure ConnectionState where
  payload : List Nat
  last_seen : Time
  last_sent : Nat
  deriving DecidableEq

/-- The default constructor `ConnectionState()`: empty payload, `last_sent{0}`, and a
default constructed `last_seen`, which is the clock epoch. -/
def ConnectionState.empty : ConnectionState :=
  { payload := [], last_seen := 0, last_sent := 0 }

/-- The constructor `ConnectionState(const vector<uint32_t>&)`: `last_sent{0}` and a
default constructed `last_seen`. -/
def ConnectionState.ofPayload (payload : List Nat) : ConnectionState :=
  { payload := payload, last_seen := 0, last_sent := 0 }

/-- Identities are `std::string`s, that is byte sequences. -/
abbrev Uuid := List (Fin 256)

/-- `unordered_map::find` on the entry list. -/
def find : List (Uuid × ConnectionState) → Uuid → Option ConnectionState
  | [], _ => none
  | (k, v) :: rest, id => if k = id then some v else find rest id

/-- The keys of the entry list. -/
def keys (l : List (Uuid × ConnectionState)) : List Uuid := l.map Prod.fst

/-- The write done through the reference returned by `at(id)` in
`SetTransmissionLastSent`. -/
def setLastSent (l : List (Uuid × ConnectionState)) (id : Uuid) (last_sent : Nat) (now : Time) :
    List (Uuid × ConnectionState) :=
  l.map fun e => if e.1 = id then (e.1, { e.2 with last_sent := last_sent, last_seen := now })
    else e

/-- `unordered_map::erase(key)` on the entry list. -/
def eraseKey (l : List (Uuid × ConnectionState)) (id : Uuid) : List (Uuid × ConnectionState) :=
  l.filter fun e => decide (e.1 ≠ id)

/-- The erase loop of `RemoveExpiredSessions`: drop each entry with
`last_seen < expired`. -/
def sweep (l : List (Uuid × ConnectionState)) (expired : Time) : List (Uuid × ConnectionState) :=
  l.filter fun e => decide (¬ e.2.last_seen < expired)

/-- `class SharedState`: the `unordered_map<string, ConnectionState> client_id_2_state`,
kept as its list of entries, no two of which share a key.  (The mutex is not modelled:
every operation is one atomic step.) -/
structure SharedState where
  client_id_2_state : List (Uuid × ConnectionState)
  nodup : (keys client_id_2_state).Nodup

instance : DecidableEq SharedState := fun a b =>
  decidable_of_iff (a.client_id_2_state = b.client_id_2_state)
    (by cases a; cases b; simp)

namespace SharedState

/-- A freshly constructed `SharedState`: the empty map. -/
def empty : SharedState := ⟨[], List.nodup_nil⟩

/-- `SharedState::RegisterNewTransmission`: `client_id_2_state.emplace(id, payload)`, which
inserts only when no entry has the key `id`. -/
def RegisterNewTransmission (s : SharedState) (id : Uuid) (payload : List Nat) : SharedState :=
  if h : id ∈ keys s.client_id_2_state then s
  else ⟨(id, ConnectionState.ofPayload payload) :: s.client_id_2_state,
    List.nodup_cons.mpr ⟨h, s.nodup⟩⟩

/-- `SharedState::GetTransmission`: the stored state, or a default constructed one when
`find` reaches `end`. -/
def GetTransmission (s : SharedState) (id : Uuid) : ConnectionState :=
  match find s.client_id_2_state id with
  | none => ConnectionState.empty
  | some st => st

/-- `SharedState::SetTransmissionLastSent`; `none` stands for the `std::out_of_range`
thrown by `client_id_2_state.at(id)` when `id` is not mapped.  `now` is the value of
`chrono::system_clock::now()`. -/
def SetTransmissionLastSent (s : SharedState) (id : Uuid) (last_sent : Nat) (now : Time) :
    Option SharedState :=
  if id ∈ keys s.client_id_2_state then
    some ⟨setLastSent s.client_id_2_state id last_sent now, by
      have hk : keys (setLastSent s.client_id_2_state id last_sent now)
          = keys s.client_id_2_state := by
        simp only [keys, setLastSent, List.map_map]
        apply List.map_congr_left
        intro e _
        by_cases h : e.1 = id <;> simp [h]
      rw [hk]; exact s.nodup⟩
  else none

/-- `SharedState::EraseTransmission`. -/
def EraseTransmission (s : SharedState) (id : Uuid) : SharedState :=
  ⟨eraseKey s.client_id_2_state id,
    s.nodup.sublist (List.Sublist.map _ (List.filter_sublist _))⟩

/-- `SharedState::RemoveExpiredSessions`, with `now` the value of
`chrono::system_clock::now()` read at its first line. -/
def RemoveExpiredSessions (s : SharedState) (now : Time) : SharedState :=
  ⟨sweep s.client_id_2_state (now - thirty_seconds),
    s.nodup.sublist (List.Sublist.map _ (List.filter_sublist _))⟩

end SharedState

/-- The oracles a handler run depends on. -/
structure Env where
  /-- The value of the `i`-th call `random_src()` of the `random_device`. -/
  random_src : Nat → Nat
  /-- The fault injector of the server process. -/
  fault : FaultInjection.Faults
  /-- The value of `system_clock::now()` inside the `k`-th `SetTransmissionLastSent`. -/
  now : Nat → Time
  /-- Whether the `k`-th `conn.SendN` of the run succeeds; `false` is the
  `socket_close_exception` thrown by `TCPStream::SendN`. -/
  send_ok : Nat → Bool

/-- How a handler run ends. -/
inductive Exit where
  /-- Step 5 was reached and the checksum sent. -/
  | complete
  /-- The `return` of the N mismatch test. -/
  | mismatch
  /-- The `return` after `FlakyConnection()` fired. -/
  | injected_drop
  /-- The `catch (socket_close_exception)` branch. -/
  | socket_closed
  /-- The `std::out_of_range` of `at(id)` left `ProcessTransmission` uncaught. -/
  | out_of_range
  deriving DecidableEq

/-- The observable result of one handler run. -/
structure Result where
  shared : SharedState
  sent : List Protocal.Message
  exit : Exit

/-- The server's reading of `login.uuid`:
`string(begin(login.uuid), find(begin(login.uuid), end(login.uuid), 0))`, the bytes of
the 40 byte field before its first NUL. -/
def uuidOf (login : Protocal.LoginRequest) : Uuid :=
  (login.uuid.take 40).takeWhile fun c => decide (c ≠ 0)

/-- The loop filling a new payload: `login.N` calls of `random_src()`, each stored as
`uint32_t`. -/
def generatePayload (random_src : Nat → Nat) (N : Nat) : List Nat :=
  (List.range N).map fun i => random_src i % U32

/-- Step 2 of `ProcessTransmission`: the local `to_transmit` and the store after the
lookup and, for an empty payload, the generation and `RegisterNewTransmission`. -/
def resolve (env : Env) (server_shared : SharedState) (uuid : Uuid) (N : Nat) :
    ConnectionState × SharedState :=
  let to_transmit := server_shared.GetTransmission uuid
  if to_transmit.payload.length = 0 then
    let payload := generatePayload env.random_src N
    ({ to_transmit with payload := payload, last_sent := 0 },
      server_shared.RegisterNewTransmission uuid payload)
  else (to_transmit, server_shared)

/-- Step 4 of `ProcessTransmission`, the loop
`for (auto pi = sending_from; pi < to_transmit.payload.size(); ++pi)`.
`count` is `payload.size() - pi`, the number of iterations left, and `k` the number of
iterations done (the index of the next fault injector and clock call; send `0` was the
confirmation).  The third component is `none` when the loop ran to its end.
`sleep_until` changes no state and is left out. -/
def streamLoop (env : Env) (uuid : Uuid) (payload : List Nat) :
    Nat → Nat → Nat → SharedState → SharedState × List Protocal.Message × Option Exit
  | 0, _, _, shared => (shared, [], none)
  | count + 1, pi, k, shared =>
    let data_to_send := (payload.getD pi 0 + FaultInjection.FlakyData env.fault k) % U32
    if env.send_ok (k + 1) then
      match shared.SetTransmissionLastSent uuid pi (env.now k) with
      | none => (shared, [.dataPacket ⟨data_to_send⟩], some .out_of_range)
      | some shared1 =>
        if FaultInjection.FlakyConnection env.fault k then
          (shared1, [.dataPacket ⟨data_to_send⟩], some .injected_drop)
        else
          let r := streamLoop env uuid payload count (pi + 1) (k + 1) shared1
          (r.1, .dataPacket ⟨data_to_send⟩ :: r.2.1, r.2.2)
    else (shared, [], some .socket_closed)

/-- The data packet the server sends in iteration `i` of a stream loop entered at index
`pi` with `k` iterations done before. -/
def packetAt (env : Env) (payload : List Nat) (pi k i : Nat) : Protocal.Message :=
  .dataPacket ⟨(payload.getD (pi + i) 0 + FaultInjection.FlakyData env.fault (k + i)) % U32⟩

/-- `Server::LocalClientState::ProcessTransmission`.  `recv` is the outcome of
`conn.RecvN<LoginRequest>()`, `none` when the socket closed first. -/
def ProcessTransmission (env : Env) (server_shared : SharedState)
    (recv : Option Protocal.LoginRequest) : Result :=
  match recv with
  | none => ⟨server_shared, [], .socket_closed⟩
  | some login =>
    let uuid := uuidOf login
    let r := resolve env server_shared uuid login.N
    let to_transmit := r.1
    let sending_from := min to_transmit.last_sent login.packets_seen
    let confirmed : Protocal.Message :=
      .loginConfirmed ⟨sending_from, to_transmit.payload.length % U32⟩
    if env.send_ok 0 then
      if to_transmit.payload.length ≠ login.N then ⟨r.2, [confirmed], .mismatch⟩
      else
        let count := to_transmit.payload.length - sending_from
        let s := streamLoop env uuid to_transmit.payload count sending_from 0 r.2
        match s.2.2 with
        | some e => ⟨s.1, confirmed :: s.2.1, e⟩
        | none =>
          let checksum := Common.ComputeChecksum to_transmit.payload
          if env.send_ok (count + 1) then
            ⟨s.1, confirmed :: (s.2.1 ++ [.dataComplete ⟨checksum⟩]), .complete⟩
          else ⟨s.1, confirmed :: s.2.1, .socket_closed⟩
    else ⟨r.2, [], .socket_closed⟩

end Server

namespace Client

/-- `enum class ReturnCode`. -/
inductive ReturnCode where
  | Success
  | CorruptedDownload
  | ConnectionFailure
  | BadUUID
  | BadRequest
  deriving DecidableEq

/-- The peer behind an `INetStream`, seen from the client, which writes one
`LoginRequest` and then only reads: given the request written, `none` when that
`SendN` throws `socket_close_exception`, else the 32-bit words the peer delivers
before the stream ends (an `RecvN` beyond them throws). -/
abbrev NetStream := Protocal.LoginRequest → Option (List Nat)

/-- What one call of `ProcessTransmission` did: its return value, `out_payload` at
return, the requests it wrote to the stream and the number of words it read. -/
structure Attempt where
  code : ReturnCode
  out_payload : List Nat
  sent : List Protocal.LoginRequest
  received : Nat
  deriving DecidableEq

/-- The `LoginRequest` built in step 1: `r{}` zero filled, the identity copied over the
head of `r.uuid`, `r.N = N`, `r.packets_seen = out_payload.size()` as `uint32_t`. -/
def loginRequest (uuid : Server.Uuid) (N : Nat) (out_payload : List Nat) :
    Protocal.LoginRequest :=
  { uuid := uuid ++ List.replicate (40 - uuid.length) 0,
    N := N,
    packets_seen := out_payload.length % U32 }

/-- The body of the receive loop on `out_payload`: overwrite at `pi` when present, else
`push_back`. -/
def store (out_payload : List Nat) (pi v : Nat) : List Nat :=
  if pi < out_payload.length then out_payload.set pi v else out_payload ++ [v]

/-- Step 3 of `ProcessTransmission`, the loop
`for (auto pi = session.sending_from; pi < session.sending_total; ++pi)`, followed by
steps 4 and 5.  `count` is `sending_total - pi`, `k` the number of iterations done,
`rx` the words not yet read and `got` the number of words read so far.  The result is
the return code, `out_payload` and the number of words read. -/
def recvLoop (fault : FaultInjection.Faults) :
    Nat → Nat → Nat → List Nat → Nat → List Nat → ReturnCode × List Nat × Nat
  | 0, _, _, rx, got, out_payload =>
    match rx with
    | [] => (.ConnectionFailure, out_payload, got)
    | complete :: _ =>
      let checksum := Common.ComputeChecksum out_payload
      (if checksum = complete then .Success else .CorruptedDownload, out_payload, got + 1)
  | count + 1, pi, k, rx, got, out_payload =>
    match rx with
    | [] => (.ConnectionFailure, out_payload, got)
    | p :: rx1 =>
      let payload := (p + FaultInjection.FlakyData fault k) % U32
      let out1 := store out_payload pi payload
      if FaultInjection.FlakyConnection fault k then (.ConnectionFailure, out1, got + 1)
      else recvLoop fault count (pi + 1) (k + 1) rx1 (got + 1) out1

/-- `Client::ProcessTransmission(stream, uuid, N, out_payload)`. -/
def ProcessTransmission (fault : FaultInjection.Faults) (stream : NetStream)
    (uuid : Server.Uuid) (N : Nat) (out_payload : List Nat) : Attempt :=
  if uuid.length > 40 then ⟨.BadUUID, out_payload, [], 0⟩
  else
    let r := loginRequest uuid N out_payload
    match stream r with
    | none => ⟨.ConnectionFailure, out_payload, [], 0⟩
    | some rx =>
      match rx with
      | sending_from :: sending_total :: rx1 =>
        if sending_total ≠ N then ⟨.BadRequest, out_payload, [r], 2⟩
        else
          let res := recvLoop fault (sending_total - sending_from) sending_from 0 rx1 2
            out_payload
          ⟨res.1, res.2.1, [r], res.2.2⟩
      | [_] => ⟨.ConnectionFailure, out_payload, [r], 1⟩
      | [] => ⟨.ConnectionFailure, out_payload, [r], 0⟩

/-- What the driver loop of `Client::main` did: the final `result`, the final `payload`,
how many `TCPStream conn(...)` it constructed, and the attempts in order. -/
structure Run where
  result : ReturnCode
  payload : List Nat
  connections : Nat
  attempts : List Attempt
  deriving DecidableEq

/-- The `do ... while (result == ReturnCode::ConnectionFailure)` loop of `Client::main`,
for the `uuid` and `n` fixed before it.  Each element of `net` describes one
`TCPStream conn("localhost", port)`: the fault injector draws during that attempt and
the peer reached, `none` when the constructor throws (which ends the process).  The
result is `none` when the process ended that way or when `net` is used up with the
loop still retrying.  The countdown before a retry changes no state. -/
def driver (uuid : Server.Uuid) (n : Nat) :
    List (FaultInjection.Faults × Option NetStream) → List Nat → Nat → List Attempt → Option Run
  | [], _, _, _ => none
  | (_, none) :: _, _, _, _ => none
  | (fault, some conn) :: net, payload, connections, attempts =>
    let a := ProcessTransmission fault conn uuid n payload
    if a.code = .ConnectionFailure then
      driver uuid n net a.out_payload (connections + 1) (attempts ++ [a])
    else some ⟨a.code, a.out_payload, connections + 1, attempts ++ [a]⟩

/-- `Client::main` from `auto result = ReturnCode::Success; vector<uint32_t> payload;`
on: the loop started with an empty payload. -/
def main (uuid : Server.Uuid) (n : Nat) (net : List (FaultInjection.Faults × Option NetStream)) :
    Option Run :=
  driver uuid n net [] 0 []

end Client

/-- The server handler as the peer of a client connection: the handler run on the
request the client wrote, its sends put on the wire. -/
def handlerStream (env : Server.Env) (shared : Server.SharedState) : Client.NetStream :=
  fun login => some (Protocal.wire (Server.ProcessTransmission env shared (some login)).sent)

namespace Server

/-- The Session Store states the server can be in: started empty, changed by handler
runs (any login or none, any random values, clock readings, injected faults and send
failures, hence completing or cut short after any number of packets) and by expiry
sweeps at any time. -/
inductive Reachable : SharedState → Prop where
  | start : Reachable SharedState.empty
  | run (env : Env) (recv : Option Protocal.LoginRequest) (shared : SharedState) :
      Reachable shared → Reachable (ProcessTransmission env shared recv).shared
  | expire (now : Time) (shared : SharedState) :
      Reachable shared → Reachable (shared.RemoveExpiredSessions now)

/-- The session invariant of the data model, `0 <= last_sent <= len(payload)`, for
every stored session. -/
def SessionInvariant (shared : SharedState) : Prop :=
  ∀ e ∈ shared.client_id_2_state, 0 ≤ e.2.last_sent ∧ e.2.last_sent ≤ e.2.payload.length

/-- What does hold of the stored sessions with a non-empty payload: `last_sent` is an
index into the payload. -/
def NonEmptyInvariant (l : List (Uuid × ConnectionState)) : Prop :=
  ∀ e ∈ l, e.2.payload ≠ [] → e.2.last_sent < e.2.payload.length

/-- The payload of the entry for `uuid`, when there is one and it is not empty, is the
handler's local `payload`. -/
def Linked (l : List (Uuid × ConnectionState)) (uuid : Uuid) (payload : List Nat) : Prop :=
  ∀ e ∈ l, e.1 = uuid → e.2.payload = [] ∨ e.2.payload = payload

instance (shared : SharedState) : Decidable (SessionInvariant shared) :=
  inferInstanceAs (Decidable (∀ e ∈ shared.client_id_2_state,
    0 ≤ e.2.last_sent ∧ e.2.last_sent ≤ e.2.payload.length))

end Server

namespace Server

/-- The operations of `SharedState` that write to the table, as values. -/
inductive StoreOp where
  | register (id : Uuid) (payload : List Nat)
  | setLastSent (id : Uuid) (last_sent : Nat) (now : Time)
  | erase (id : Uuid)
  | removeExpired (now : Time)

/-- Whether the operation is a `SetTransmissionLastSent` for the identity `id`. -/
def StoreOp.setsLastSentOf (id : Uuid) : StoreOp → Bool
  | .setLastSent id2 _ _ => decide (id2 = id)
  | _ => false

/-- Whether the operation can change or remove the session of `id` once it is mapped:
a `SetTransmissionLastSent` or `EraseTransmission` for `id`, or any sweep. -/
def StoreOp.touches (id : Uuid) : StoreOp → Bool
  | .register _ _ => false
  | .setLastSent id2 _ _ => decide (id2 = id)
  | .erase id2 => decide (id2 = id)
  | .removeExpired _ => true

/-- The store after one operation; `none` is the `std::out_of_range` of
`SetTransmissionLastSent` for an identity that is not mapped. -/
def StoreOp.run (s : SharedState) : StoreOp → Option SharedState
  | .register id payload => some (s.RegisterNewTransmission id payload)
  | .setLastSent id last_sent now => s.SetTransmissionLastSent id last_sent now
  | .erase id => some (s.EraseTransmission id)
  | .removeExpired now => some (s.RemoveExpiredSessions now)

/-- The store after a sequence of operations, `none` as soon as one of them throws. -/
def runOps : SharedState → List StoreOp → Option SharedState
  | s, [] => some s
  | s, op :: ops =>
    match op.run s with
    | none => none
    | some s1 => runOps s1 ops

end Server

namespace Client

/-- The values the receive loop stores for the data words `ws`, the first of them read
in iteration `k`: each word plus the client's own `FlakyData()`, as `uint32_t`. -/
def received (fault : FaultInjection.Faults) : Nat → List Nat → List Nat
  | _, [] => []
  | k, w :: ws => (w + FaultInjection.FlakyData fault k) % U32 :: received fault (k + 1) ws

end Client

namespace Scenario

/-- A server environment without faults: the random device yields `7, 17, 27, ...`, the
clock reads `1000 + k`, every send succeeds. -/
def env : Server.Env :=
  { random_src := fun i => 10 * i + 7, fault := FaultInjection.disabled,
    now := fun k => 1000 + (k : Int), send_ok := fun _ => true }

/-- The store after one complete transfer of `N = 2` values to the identity `a`. -/
def storeA2 : Server.SharedState :=
  (Server.ProcessTransmission env Server.SharedState.empty
    (some (Client.loginRequest [97] 2 []))).shared

/-- The store after a login of the identity `a` with `N = 0`. -/
def storeA0 : Server.SharedState :=
  (Server.ProcessTransmission env Server.SharedState.empty
    (some (Client.loginRequest [97] 0 []))).shared

/-- The store holding for the identity `abc` the payload `[10, 11, 12, 13, 14]` with
`last_sent = 1`: a session of `N = 5` interrupted after the packets for indices 0, 1. -/
def storeInterrupted : Server.SharedState :=
  ((Server.SharedState.empty.RegisterNewTransmission [97, 98, 99]
    [10, 11, 12, 13, 14]).SetTransmissionLastSent [97, 98, 99] 1 1001).getD
    Server.SharedState.empty

/-- A server environment with both fault knobs set: every data packet is corrupted by
`+5`, and the connection is dropped after the second packet. -/
def envFaulty : Server.Env :=
  { random_src := fun i => 10 * i + 7,
    fault := { g_flaky_connection := 3, g_flaky_data := 2,
               conn_draw := fun k => if k = 1 then 1 else 2,
               data_draw := fun _ => (1, 5) },
    now := fun k => 1000 + (k : Int), send_ok := fun _ => true }

/-- The store holding the session of `a`, registered and with no packet recorded, and
the session of `b`, whose first packet was recorded at 29 s. -/
def storeTwo : Server.SharedState :=
  (((Server.SharedState.empty.RegisterNewTransmission [97] [1, 2]).RegisterNewTransmission
    [98] [3]).SetTransmissionLastSent [98] 0 29000000000).getD Server.SharedState.empty

/-- A server environment whose fault injector corrupts only the third data packet, by
`+9`, and never drops the connection. -/
def envCorruptLast : Server.Env :=
  { random_src := fun i => 10 * i + 7,
    fault := { g_flaky_connection := 0, g_flaky_data := 4,
               conn_draw := fun _ => 2,
               data_draw := fun k => if k = 2 then (1, 9) else (2, 0) },
    now := fun k => 1000 + (k : Int), send_ok := fun _ => true }

end Scenario

/-! ## Theorems -/

namespace Common

theorem checksumLoop_eq_foldl (vs : List Nat) (seed : Nat) :
    checksumLoop seed vs = vs.foldl
      (fun seed v => seed ^^^ ((v + 0x9e3779b9 + (seed <<< 6) % 2 ^ 32 + (seed >>> 2)) % 2 ^ 32))
      seed := by
  induction vs generalizing seed with
  | nil => rfl
  | cons v rest ih =>
    simp only [checksumLoop, List.foldl_cons]
    rw [ih]
    rfl

/-- C4. `ComputeChecksum` is the left fold, from the seed `len(vs) mod 2^32`, of the step
`seed XOR ((v + 0x9e3779b9 + (seed << 6) + (seed >> 2)) mod 2^32)` with the left shift
truncated to 32 bits; the checksum of the empty sequence is `0`, and the checksum of
`[0,0,0]` is three such steps from seed `3`, which is `0xfb2b4489`. -/
theorem ComputeChecksum_refines_spec :
    (∀ vs : List Nat, ComputeChecksum vs = checksumSpec vs) ∧
    ComputeChecksum [] = 0 ∧
    ComputeChecksum [0, 0, 0] = mix (mix (mix 3 0) 0) 0 ∧
    ComputeChecksum [0, 0, 0] = 0xfb2b4489 := by
  refine ⟨fun vs => ?_, by decide, by decide, by decide⟩
  unfold ComputeChecksum checksumSpec
  rw [checksumLoop_eq_foldl]
  rfl

end Common

namespace Server

theorem find_eq_none_iff (l : List (Uuid × ConnectionState)) (id : Uuid) :
    find l id = none ↔ id ∉ keys l := by
  induction l with
  | nil => simp [find, keys]
  | cons e rest ih =>
    obtain ⟨k, v⟩ := e
    by_cases h : k = id
    · simp [find, keys, h]
    · have h2 : ¬ id = k := fun h3 => h h3.symm
      simp only [find, h, if_false, ih]
      simp [keys, h2]

theorem find_cons (k : Uuid) (v : ConnectionState) (rest : List (Uuid × ConnectionState))
    (id : Uuid) : find ((k, v) :: rest) id = if k = id then some v else find rest id := rfl

theorem setLastSent_cons (e : Uuid × ConnectionState) (rest : List (Uuid × ConnectionState))
    (id : Uuid) (n : Nat) (t : Time) :
    setLastSent (e :: rest) id n t =
      (if e.1 = id then (e.1, { e.2 with last_sent := n, last_seen := t }) else e)
        :: setLastSent rest id n t := rfl

theorem find_setLastSent (l : List (Uuid × ConnectionState)) (id other : Uuid) (n : Nat)
    (t : Time) :
    find (setLastSent l id n t) other =
      if other = id then (find l id).map fun st => { st with last_sent := n, last_seen := t }
      else find l other := by
  induction l with
  | nil => simp [find, setLastSent]
  | cons e rest ih =>
    obtain ⟨k, v⟩ := e
    rw [setLastSent_cons]
    by_cases hk : k = id <;> by_cases ho : other = id <;> by_cases hko : k = other <;>
      simp_all [find_cons]

theorem find_eraseKey (l : List (Uuid × ConnectionState)) (id other : Uuid) :
    find (eraseKey l id) other = if other = id then none else find l other := by
  induction l with
  | nil => simp [find, eraseKey]
  | cons e rest ih =>
    obtain ⟨k, v⟩ := e
    unfold eraseKey at ih ⊢
    by_cases hk : k = id <;> by_cases ho : other = id <;> by_cases hko : k = other <;>
      simp_all [find_cons, List.filter_cons]

namespace SharedState

theorem find_RegisterNewTransmission (s : SharedState) (id other : Uuid) (p : List Nat) :
    find (s.RegisterNewTransmission id p).client_id_2_state other =
      if other = id ∧ id ∉ keys s.client_id_2_state then some (ConnectionState.ofPayload p)
      else find s.client_id_2_state other := by
  unfold RegisterNewTransmission
  by_cases h : id ∈ keys s.client_id_2_state
  · simp [h]
  · by_cases ho : other = id
    · subst ho
      simp [h, find]
    · have ho2 : ¬ id = other := fun h => ho h.symm
      simp [h, find, ho, ho2]

theorem GetTransmission_of_not_mem (s : SharedState) (id : Uuid)
    (h : id ∉ keys s.client_id_2_state) : s.GetTransmission id = ConnectionState.empty := by
  unfold GetTransmission
  rw [(find_eq_none_iff _ _).mpr h]

theorem mem_keys_RegisterNewTransmission (s : SharedState) (id : Uuid) (p : List Nat) :
    id ∈ keys (s.RegisterNewTransmission id p).client_id_2_state := by
  unfold RegisterNewTransmission
  by_cases h : id ∈ keys s.client_id_2_state
  · rw [dif_pos h]; exact h
  · rw [dif_neg h]; simp [keys]

theorem SetTransmissionLastSent_of_mem (s : SharedState) (id : Uuid) (n : Nat) (t : Time)
    (h : id ∈ keys s.client_id_2_state) :
    ∃ s2, s.SetTransmissionLastSent id n t = some s2 ∧
      s2.client_id_2_state = setLastSent s.client_id_2_state id n t := by
  unfold SetTransmissionLastSent
  rw [if_pos h]
  exact ⟨_, rfl, rfl⟩

theorem SetTransmissionLastSent_of_not_mem (s : SharedState) (id : Uuid) (n : Nat) (t : Time)
    (h : id ∉ keys s.client_id_2_state) : s.SetTransmissionLastSent id n t = none := by
  unfold SetTransmissionLastSent
  rw [if_neg h]

/-- C9. Store contract for an identity `id` that is not mapped: `GetTransmission id` is
the empty session (empty payload, `last_sent = 0`), and being a query it leaves the
store as it is; after `RegisterNewTransmission id p` it returns payload `p` with
`last_sent = 0`; a further `SetTransmissionLastSent id i` succeeds and then it returns
payload `p` with `last_sent = i`; after `EraseTransmission id` it returns the empty
session again; and none of register, set and erase changes what is stored for any
other identity. -/
theorem store_get_register_set_erase (s : SharedState) (id : Uuid) (p : List Nat) (i : Nat)
    (now : Time) (h : id ∉ keys s.client_id_2_state) :
    (s.GetTransmission id).payload = [] ∧ (s.GetTransmission id).last_sent = 0 ∧
    s.GetTransmission id = ConnectionState.empty ∧
    ((s.RegisterNewTransmission id p).GetTransmission id).payload = p ∧
    ((s.RegisterNewTransmission id p).GetTransmission id).last_sent = 0 ∧
    (∃ s2, (s.RegisterNewTransmission id p).SetTransmissionLastSent id i now = some s2 ∧
      (s2.GetTransmission id).payload = p ∧ (s2.GetTransmission id).last_sent = i ∧
      (s2.GetTransmission id).last_seen = now ∧
      (s2.EraseTransmission id).GetTransmission id = ConnectionState.empty ∧
      ∀ other, other ≠ id →
        find s2.client_id_2_state other = find s.client_id_2_state other ∧
        find (s2.EraseTransmission id).client_id_2_state other
          = find s.client_id_2_state other) ∧
    (∀ other, other ≠ id →
      find (s.RegisterNewTransmission id p).client_id_2_state other
        = find s.client_id_2_state other) := by
  have hg := GetTransmission_of_not_mem s id h
  have hr : find (s.RegisterNewTransmission id p).client_id_2_state id
      = some (ConnectionState.ofPayload p) := by
    rw [find_RegisterNewTransmission]; simp [h]
  refine ⟨by rw [hg]; rfl, by rw [hg]; rfl, hg, ?_, ?_, ?_, ?_⟩
  · simp [GetTransmission, hr, ConnectionState.ofPayload]
  · simp [GetTransmission, hr, ConnectionState.ofPayload]
  · have hm := mem_keys_RegisterNewTransmission s id p
    obtain ⟨s2, hs2, hl⟩ := SetTransmissionLastSent_of_mem _ id i now hm
    refine ⟨s2, hs2, ?_, ?_, ?_, ?_, ?_⟩
    · simp [GetTransmission, hl, find_setLastSent, hr, ConnectionState.ofPayload]
    · simp [GetTransmission, hl, find_setLastSent, hr, ConnectionState.ofPayload]
    · simp [GetTransmission, hl, find_setLastSent, hr, ConnectionState.ofPayload]
    · simp [GetTransmission, EraseTransmission, find_eraseKey, ConnectionState.empty]
    · intro other ho
      simp [EraseTransmission, find_eraseKey, hl, find_setLastSent,
        find_RegisterNewTransmission, ho]
  · intro other ho
    simp [find_RegisterNewTransmission, ho]

theorem store_get_register_set_erase_witness :
    ([97] : Uuid) ∉ keys SharedState.empty.client_id_2_state ∧
    ((SharedState.empty.RegisterNewTransmission [97] [5, 6]).GetTransmission [97]).payload
      = [5, 6] :=
  ⟨by decide, (store_get_register_set_erase SharedState.empty [97] [5, 6] 1 7 (by decide)).2.2.2.1⟩

end SharedState

theorem keys_setLastSent (l : List (Uuid × ConnectionState)) (id : Uuid) (n : Nat) (t : Time) :
    keys (setLastSent l id n t) = keys l := by
  simp only [keys, setLastSent, List.map_map]
  apply List.map_congr_left
  intro e _
  by_cases h : e.1 = id <;> simp [h]

theorem setLastSent_setLastSent (l : List (Uuid × ConnectionState)) (id : Uuid) (a b : Nat)
    (t u : Time) : setLastSent (setLastSent l id a t) id b u = setLastSent l id b u := by
  simp only [setLastSent, List.map_map]
  apply List.map_congr_left
  intro e _
  by_cases h : e.1 = id <;> simp [h]

theorem streamLoop_no_drop (env : Env) (uuid : Uuid) (payload : List Nat) (count : Nat) :
    ∀ (pi k : Nat) (shared : SharedState),
      (∀ i, i < count → env.send_ok (k + i + 1) = true) →
      (∀ i, i < count → FaultInjection.FlakyConnection env.fault (k + i) = false) →
      uuid ∈ keys shared.client_id_2_state →
      ∃ shared2,
        streamLoop env uuid payload count pi k shared
          = (shared2, (List.range count).map (packetAt env payload pi k), none) ∧
        (count = 0 → shared2 = shared) ∧
        (0 < count → shared2.client_id_2_state
          = setLastSent shared.client_id_2_state uuid (pi + count - 1)
              (env.now (k + count - 1))) := by
  induction count with
  | zero =>
    intro pi k shared _ _ _
    exact ⟨shared, rfl, fun _ => rfl, fun h => absurd h (Nat.lt_irrefl 0)⟩
  | succ c ih =>
    intro pi k shared hs hd hm
    obtain ⟨sh1, h1, hl1⟩ :=
      SharedState.SetTransmissionLastSent_of_mem shared uuid pi (env.now k) hm
    have hm1 : uuid ∈ keys sh1.client_id_2_state := by
      rw [hl1, keys_setLastSent]; exact hm
    obtain ⟨sh2, h2, hz, hp⟩ := ih (pi + 1) (k + 1) sh1
      (fun i hi => by have := hs (i + 1) (by omega); rw [← this]; congr 1; omega)
      (fun i hi => by have := hd (i + 1) (by omega); rw [← this]; congr 1; omega)
      hm1
    have hs0 : env.send_ok (k + 1) = true := hs 0 (by omega)
    have hd0 : FaultInjection.FlakyConnection env.fault k = false := hd 0 (by omega)
    refine ⟨sh2, ?_, fun h => absurd h (Nat.succ_ne_zero c), fun _ => ?_⟩
    · simp only [streamLoop, hs0, if_true, h1, hd0, h2, List.range_succ_eq_map, List.map_cons,
        List.map_map]
      refine Prod.ext rfl (Prod.ext ?_ rfl)
      refine congrArg₂ List.cons rfl ?_
      apply List.map_congr_left
      intro i _
      simp only [packetAt, Function.comp, Nat.succ_eq_add_one]
      rw [show pi + 1 + i = pi + (i + 1) by omega, show k + 1 + i = k + (i + 1) by omega]
    · rcases Nat.eq_zero_or_pos c with hc | hc
      · subst hc
        rw [hz rfl, hl1]
        rfl
      · rw [hp hc, hl1, setLastSent_setLastSent]
        rw [show pi + 1 + c - 1 = pi + (c + 1) - 1 by omega,
          show k + 1 + c - 1 = k + (c + 1) - 1 by omega]

theorem streamLoop_drop (env : Env) (uuid : Uuid) (payload : List Nat) (d : Nat) :
    ∀ (count pi k : Nat) (shared : SharedState),
      d < count →
      (∀ i, i ≤ d → env.send_ok (k + i + 1) = true) →
      (∀ i, i < d → FaultInjection.FlakyConnection env.fault (k + i) = false) →
      FaultInjection.FlakyConnection env.fault (k + d) = true →
      uuid ∈ keys shared.client_id_2_state →
      ∃ shared2,
        streamLoop env uuid payload count pi k shared
          = (shared2, (List.range (d + 1)).map (packetAt env payload pi k),
              some Exit.injected_drop) ∧
        shared2.client_id_2_state
          = setLastSent shared.client_id_2_state uuid (pi + d) (env.now (k + d)) := by
  induction d with
  | zero =>
    intro count pi k shared hc hs _ hf hm
    obtain ⟨c, rfl⟩ : ∃ c, count = c + 1 := ⟨count - 1, by omega⟩
    obtain ⟨sh1, h1, hl1⟩ :=
      SharedState.SetTransmissionLastSent_of_mem shared uuid pi (env.now k) hm
    have hs0 : env.send_ok (k + 1) = true := hs 0 (by omega)
    refine ⟨sh1, ?_, hl1⟩
    simp only [Nat.add_zero] at hf
    simp only [streamLoop, hs0, if_true, h1, hf]
    rfl
  | succ d ih =>
    intro count pi k shared hc hs hd hf hm
    obtain ⟨c, rfl⟩ : ∃ c, count = c + 1 := ⟨count - 1, by omega⟩
    obtain ⟨sh1, h1, hl1⟩ :=
      SharedState.SetTransmissionLastSent_of_mem shared uuid pi (env.now k) hm
    have hm1 : uuid ∈ keys sh1.client_id_2_state := by
      rw [hl1, keys_setLastSent]; exact hm
    obtain ⟨sh2, h2, hp⟩ := ih c (pi + 1) (k + 1) sh1 (by omega)
      (fun i hi => by have := hs (i + 1) (by omega); rw [← this]; congr 1; omega)
      (fun i hi => by have := hd (i + 1) (by omega); rw [← this]; congr 1; omega)
      (by rw [← hf]; congr 1; omega)
      hm1
    have hs0 : env.send_ok (k + 1) = true := hs 0 (by omega)
    have hd0 : FaultInjection.FlakyConnection env.fault k = false := hd 0 (by omega)
    refine ⟨sh2, ?_, ?_⟩
    · simp only [streamLoop, hs0, if_true, h1, hd0, h2]
      rw [List.range_succ_eq_map (d + 1)]
      simp only [List.map_cons, List.map_map]
      refine Prod.ext rfl (Prod.ext ?_ rfl)
      refine congrArg₂ List.cons rfl ?_
      apply List.map_congr_left
      intro i _
      simp only [packetAt, Function.comp, Nat.succ_eq_add_one]
      rw [show pi + 1 + i = pi + (i + 1) by omega, show k + 1 + i = k + (i + 1) by omega]
    · rw [hp, hl1, setLastSent_setLastSent]
      rw [show pi + 1 + d = pi + (d + 1) by omega, show k + 1 + d = k + (d + 1) by omega]

theorem resolve_mem_keys (env : Env) (shared : SharedState) (uuid : Uuid) (N : Nat) :
    uuid ∈ keys (resolve env shared uuid N).2.client_id_2_state := by
  unfold resolve
  by_cases h : (shared.GetTransmission uuid).payload.length = 0
  · simp only [h, if_true]
    exact SharedState.mem_keys_RegisterNewTransmission shared uuid _
  · simp only [h, if_false]
    by_contra hn
    rw [SharedState.GetTransmission_of_not_mem shared uuid hn] at h
    exact h rfl

theorem ProcessTransmission_no_drop (env : Env) (shared : SharedState)
    (login : Protocal.LoginRequest)
    (hlen : (resolve env shared (uuidOf login) login.N).1.payload.length = login.N)
    (hs : ∀ i, i ≤ login.N
        - min (resolve env shared (uuidOf login) login.N).1.last_sent login.packets_seen + 1 →
      env.send_ok i = true)
    (hd : ∀ i, i < login.N
        - min (resolve env shared (uuidOf login) login.N).1.last_sent login.packets_seen →
      FaultInjection.FlakyConnection env.fault i = false) :
    ∃ shared2,
      ProcessTransmission env shared (some login) =
        ⟨shared2,
          .loginConfirmed ⟨min (resolve env shared (uuidOf login) login.N).1.last_sent
              login.packets_seen, login.N % U32⟩ ::
            ((List.range (login.N
                - min (resolve env shared (uuidOf login) login.N).1.last_sent
                    login.packets_seen)).map
              (packetAt env (resolve env shared (uuidOf login) login.N).1.payload
                (min (resolve env shared (uuidOf login) login.N).1.last_sent
                  login.packets_seen) 0) ++
              [.dataComplete ⟨Common.ComputeChecksum
                (resolve env shared (uuidOf login) login.N).1.payload⟩]),
          .complete⟩ ∧
      (login.N - min (resolve env shared (uuidOf login) login.N).1.last_sent
          login.packets_seen = 0 →
        shared2 = (resolve env shared (uuidOf login) login.N).2) ∧
      (0 < login.N - min (resolve env shared (uuidOf login) login.N).1.last_sent
          login.packets_seen →
        shared2.client_id_2_state =
          setLastSent (resolve env shared (uuidOf login) login.N).2.client_id_2_state
            (uuidOf login) (login.N - 1)
            (env.now (login.N - min (resolve env shared (uuidOf login) login.N).1.last_sent
              login.packets_seen - 1))) := by
  obtain ⟨sh2, h2, hz, hp⟩ := streamLoop_no_drop env (uuidOf login)
    (resolve env shared (uuidOf login) login.N).1.payload
    (login.N - min (resolve env shared (uuidOf login) login.N).1.last_sent login.packets_seen)
    (min (resolve env shared (uuidOf login) login.N).1.last_sent login.packets_seen) 0
    (resolve env shared (uuidOf login) login.N).2
    (fun i hi => hs _ (by omega))
    (fun i hi => by rw [Nat.zero_add]; exact hd i hi)
    (resolve_mem_keys env shared _ _)
  refine ⟨sh2, ?_, hz, fun h => ?_⟩
  · unfold ProcessTransmission
    simp only [hs 0 (Nat.zero_le _), if_true, hlen, ne_eq, not_true_eq_false, if_false, h2,
      hs _ (Nat.le_refl _)]
  · rw [hp h]
    congr 1
    · omega
    · congr 1; omega

theorem ProcessTransmission_drop (env : Env) (shared : SharedState)
    (login : Protocal.LoginRequest) (d : Nat)
    (hlen : (resolve env shared (uuidOf login) login.N).1.payload.length = login.N)
    (hlt : d < login.N
        - min (resolve env shared (uuidOf login) login.N).1.last_sent login.packets_seen)
    (hs : ∀ i, i ≤ d + 1 → env.send_ok i = true)
    (hd : ∀ i, i < d → FaultInjection.FlakyConnection env.fault i = false)
    (hf : FaultInjection.FlakyConnection env.fault d = true) :
    ∃ shared2,
      ProcessTransmission env shared (some login) =
        ⟨shared2,
          .loginConfirmed ⟨min (resolve env shared (uuidOf login) login.N).1.last_sent
              login.packets_seen, login.N % U32⟩ ::
            (List.range (d + 1)).map
              (packetAt env (resolve env shared (uuidOf login) login.N).1.payload
                (min (resolve env shared (uuidOf login) login.N).1.last_sent
                  login.packets_seen) 0),
          .injected_drop⟩ ∧
      shared2.client_id_2_state =
        setLastSent (resolve env shared (uuidOf login) login.N).2.client_id_2_state
          (uuidOf login)
          (min (resolve env shared (uuidOf login) login.N).1.last_sent login.packets_seen + d)
          (env.now d) := by
  obtain ⟨sh2, h2, hp⟩ := streamLoop_drop env (uuidOf login)
    (resolve env shared (uuidOf login) login.N).1.payload d
    (login.N - min (resolve env shared (uuidOf login) login.N).1.last_sent login.packets_seen)
    (min (resolve env shared (uuidOf login) login.N).1.last_sent login.packets_seen) 0
    (resolve env shared (uuidOf login) login.N).2 hlt
    (fun i hi => hs _ (by omega))
    (fun i hi => by rw [Nat.zero_add]; exact hd i hi)
    (by rw [Nat.zero_add]; exact hf)
    (resolve_mem_keys env shared _ _)
  refine ⟨sh2, ?_, ?_⟩
  · unfold ProcessTransmission
    simp only [hs 0 (Nat.zero_le _), if_true, hlen, ne_eq, not_true_eq_false, if_false, h2]
  · rw [hp, Nat.zero_add]

theorem GetTransmission_setLastSent (s s2 : SharedState) (id : Uuid) (n : Nat) (t : Time)
    (hm : id ∈ keys s.client_id_2_state)
    (h : s2.client_id_2_state = setLastSent s.client_id_2_state id n t) :
    s2.GetTransmission id = { s.GetTransmission id with last_sent := n, last_seen := t } ∧
    ∀ other, other ≠ id → find s2.client_id_2_state other = find s.client_id_2_state other := by
  constructor
  · unfold SharedState.GetTransmission
    rw [h, find_setLastSent, if_pos rfl]
    cases hf : find s.client_id_2_state id with
    | none => exact absurd hm ((find_eq_none_iff _ _).mp hf)
    | some st => rfl
  · intro other ho
    rw [h, find_setLastSent, if_neg ho]

/-- C10. Let `p` be the handler's session payload after step 2, of length the requested
`N`, and `s` the resume index.  With no transport failure: if no connection drop is
injected, the handler sends, after the confirmation, exactly `len(p) - s` data packets
in increasing index order, the `j`-th carrying `(p[s+j] + d_j) mod 2^32` with `d_j`
the `j`-th corruption delta, then exactly one `DataComplete` carrying
`ComputeChecksum(p)`, the checksum of the uncorrupted payload; the stored payload is
what it was and, when a packet was sent, the stored `last_sent` is `len(p) - 1`.  If
the first drop is injected after the packet for index `s + d`, the sends stop with that
packet, no `DataComplete` is sent, and the stored `last_sent` is `s + d`. -/
theorem stream_then_checksum (env : Env) (shared stored : SharedState)
    (login : Protocal.LoginRequest) (p : List Nat) (t : Time) (m : Nat)
    (hres : resolve env shared (uuidOf login) login.N = (⟨p, t, m⟩, stored))
    (hlen : p.length = login.N)
    (hs : ∀ i, env.send_ok i = true) :
    ((∀ j, j < p.length - min m login.packets_seen →
        FaultInjection.FlakyConnection env.fault j = false) →
      (ProcessTransmission env shared (some login)).sent =
        .loginConfirmed ⟨min m login.packets_seen, p.length % U32⟩ ::
          ((List.range (p.length - min m login.packets_seen)).map (fun j =>
              Protocal.Message.dataPacket
                ⟨(p.getD (min m login.packets_seen + j) 0
                  + FaultInjection.FlakyData env.fault j) % U32⟩) ++
            [.dataComplete ⟨Common.ComputeChecksum p⟩]) ∧
      (ProcessTransmission env shared (some login)).exit = .complete ∧
      ((ProcessTransmission env shared (some login)).shared.GetTransmission
          (uuidOf login)).payload = (stored.GetTransmission (uuidOf login)).payload ∧
      (min m login.packets_seen < p.length →
        ((ProcessTransmission env shared (some login)).shared.GetTransmission
          (uuidOf login)).last_sent = p.length - 1)) ∧
    (∀ d, d < p.length - min m login.packets_seen →
      (∀ j, j < d → FaultInjection.FlakyConnection env.fault j = false) →
      FaultInjection.FlakyConnection env.fault d = true →
      (ProcessTransmission env shared (some login)).sent =
        .loginConfirmed ⟨min m login.packets_seen, p.length % U32⟩ ::
          (List.range (d + 1)).map (fun j =>
            Protocal.Message.dataPacket
              ⟨(p.getD (min m login.packets_seen + j) 0
                + FaultInjection.FlakyData env.fault j) % U32⟩) ∧
      (ProcessTransmission env shared (some login)).exit = .injected_drop ∧
      ((ProcessTransmission env shared (some login)).shared.GetTransmission
          (uuidOf login)).payload = (stored.GetTransmission (uuidOf login)).payload ∧
      ((ProcessTransmission env shared (some login)).shared.GetTransmission
          (uuidOf login)).last_sent = min m login.packets_seen + d) := by
  have hlen2 : (resolve env shared (uuidOf login) login.N).1.payload.length = login.N := by
    rw [hres]; exact hlen
  have hmem := resolve_mem_keys env shared (uuidOf login) login.N
  rw [hres] at hmem
  have hpk : packetAt env p (min m login.packets_seen) 0 = fun j =>
      Protocal.Message.dataPacket
        ⟨(p.getD (min m login.packets_seen + j) 0
          + FaultInjection.FlakyData env.fault j) % U32⟩ := by
    funext j
    simp only [packetAt, Nat.zero_add]
  constructor
  · intro hd
    obtain ⟨sh2, h2, hz, hp⟩ := ProcessTransmission_no_drop env shared login hlen2
      (fun i _ => hs i) (by rw [hres, ← hlen]; exact hd)
    rw [hres] at h2 hz hp
    simp only [] at h2 hz hp
    rw [h2, hlen, ← hpk]
    refine ⟨rfl, rfl, ?_, fun hlt => ?_⟩
    · rcases Nat.eq_zero_or_pos (login.N - min m login.packets_seen) with hc | hc
      · rw [hz hc]
      · rw [(GetTransmission_setLastSent stored sh2 _ _ _ hmem (hp hc)).1]
    · rw [(GetTransmission_setLastSent stored sh2 _ _ _ hmem (hp (by omega))).1]
  · intro d hlt hd hf
    obtain ⟨sh2, h2, hp⟩ := ProcessTransmission_drop env shared login d hlen2
      (by rw [hres, ← hlen]; exact hlt) (fun i _ => hs i) hd hf
    rw [hres] at h2 hp
    simp only [] at h2 hp
    rw [h2, hlen, ← hpk]
    refine ⟨rfl, rfl, ?_, ?_⟩
    · rw [(GetTransmission_setLastSent stored sh2 _ _ _ hmem hp).1]
    · rw [(GetTransmission_setLastSent stored sh2 _ _ _ hmem hp).1]

theorem stream_then_checksum_witness :
    (ProcessTransmission Scenario.envFaulty SharedState.empty (some ⟨[97], 3, 0⟩)).sent
      = [.loginConfirmed ⟨0, 3⟩, .dataPacket ⟨12⟩, .dataPacket ⟨22⟩] ∧
    ((ProcessTransmission Scenario.envFaulty SharedState.empty
      (some ⟨[97], 3, 0⟩)).shared.GetTransmission (uuidOf ⟨[97], 3, 0⟩)).last_sent = 1 :=
  have h := (stream_then_checksum Scenario.envFaulty SharedState.empty
    (SharedState.empty.RegisterNewTransmission [97] [7, 17, 27]) ⟨[97], 3, 0⟩ [7, 17, 27] 0 0
    (by decide) rfl (fun _ => rfl)).2 1 (by decide)
    (fun j hj => by
      have hj0 : j = 0 := by omega
      subst hj0
      decide)
    (by decide)
  ⟨h.1.trans (by decide), h.2.2.2⟩

end Server

namespace FaultInjection

theorem FlakyData_of_knob_zero (f : Faults) (h : f.g_flaky_data = 0) (k : Nat) :
    FlakyData f k = 0 := by
  simp [FlakyData, h]

theorem FlakyConnection_of_knob_zero (f : Faults) (h : f.g_flaky_connection = 0) (k : Nat) :
    FlakyConnection f k = false := by
  simp [FlakyConnection, h]

end FaultInjection

namespace Protocal

theorem wire_packets (vs : List Nat) (rest : List Message) :
    wire ((vs.map fun v => Message.dataPacket ⟨v⟩) ++ rest) = vs ++ wire rest := by
  induction vs with
  | nil => rfl
  | cons v vs ih =>
    show v :: wire ((vs.map fun v => Message.dataPacket ⟨v⟩) ++ rest) = v :: (vs ++ wire rest)
    rw [ih]

end Protocal

namespace Client

theorem store_at_length (pre post : List Nat) (v : Nat) :
    store (pre ++ post) pre.length v = pre ++ v :: post.drop 1 := by
  cases post with
  | nil => simp [store]
  | cons x xs =>
    have hlt : pre.length < (pre ++ x :: xs).length := by simp
    simp only [store, hlt, if_true, List.drop_succ_cons, List.drop_zero]
    induction pre with
    | nil => rfl
    | cons y ys ih =>
      simp only [List.cons_append, List.length_cons, List.set_cons_succ]
      rw [ih (by simp)]

theorem recvLoop_no_fault (fault : FaultInjection.Faults)
    (hc : fault.g_flaky_connection = 0) (hd : fault.g_flaky_data = 0) (count : Nat) :
    ∀ (ws pre post : List Nat) (k got c : Nat) (rest : List Nat),
      ws.length = count → (∀ w ∈ ws, w < U32) →
      recvLoop fault count pre.length k (ws ++ c :: rest) got (pre ++ post) =
        (if Common.ComputeChecksum (pre ++ ws ++ post.drop count) = c then ReturnCode.Success
          else ReturnCode.CorruptedDownload,
          pre ++ ws ++ post.drop count, got + count + 1) := by
  induction count with
  | zero =>
    intro ws pre post k got c rest hl _
    have hws : ws = [] := List.length_eq_zero.mp hl
    subst hws
    simp [recvLoop]
  | succ n ih =>
    intro ws pre post k got c rest hl h32
    cases ws with
    | nil => simp at hl
    | cons w ws1 =>
      have hw : w < U32 := h32 w (by simp)
      have hl1 : ws1.length = n := by simpa using hl
      have h1 := ih ws1 (pre ++ [w]) (post.drop 1) (k + 1) (got + 1) c rest hl1
        (fun x hx => h32 x (by simp [hx]))
      simp only [List.length_append, List.length_singleton, List.drop_drop] at h1
      simp only [List.cons_append, recvLoop,
        FaultInjection.FlakyData_of_knob_zero fault hd,
        FaultInjection.FlakyConnection_of_knob_zero fault hc, Nat.add_zero,
        Nat.mod_eq_of_lt hw, store_at_length]
      have e1 : pre ++ w :: List.drop 1 post = pre ++ [w] ++ List.drop 1 post := by simp
      rw [e1, h1]
      have e2 : 1 + n = n + 1 := by omega
      have e3 : got + 1 + n + 1 = got + (n + 1) + 1 := by omega
      simp [e2, e3]

theorem ProcessTransmission_no_fault (fault : FaultInjection.Faults)
    (hc : fault.g_flaky_connection = 0) (hd : fault.g_flaky_data = 0) (stream : NetStream)
    (uuid : Server.Uuid) (N : Nat) (out : List Nat) (s c : Nat) (ws rest : List Nat)
    (hu : uuid.length ≤ 40)
    (hst : stream (loginRequest uuid N out) = some (s :: N :: (ws ++ c :: rest)))
    (hl : ws.length = N - s) (h32 : ∀ w ∈ ws, w < U32) (hs : s ≤ out.length) :
    ProcessTransmission fault stream uuid N out =
      ⟨if Common.ComputeChecksum (out.take s ++ ws ++ out.drop (s + (N - s))) = c
          then ReturnCode.Success else ReturnCode.CorruptedDownload,
        out.take s ++ ws ++ out.drop (s + (N - s)), [loginRequest uuid N out], N - s + 3⟩ := by
  have h := recvLoop_no_fault fault hc hd (N - s) ws (out.take s) (out.drop s) 0 2 c rest hl h32
  rw [List.length_take, Nat.min_eq_left hs, List.take_append_drop, List.drop_drop] at h
  unfold ProcessTransmission
  rw [if_neg (Nat.not_lt.mpr hu)]
  simp only [hst, ne_eq, not_true_eq_false, if_false, h]
  have e : 2 + (N - s) + 1 = N - s + 3 := by omega
  rw [e]

end Client

namespace Server

theorem takeWhile_append_replicate (l : List (Fin 256)) (n : Nat) :
    (l ++ List.replicate n 0).takeWhile (fun c => decide (c ≠ 0))
      = l.takeWhile fun c => decide (c ≠ 0) := by
  induction l with
  | nil =>
    cases n with
    | zero => rfl
    | succ n => simp [List.replicate_succ]
  | cons x xs ih =>
    by_cases hx : x = 0
    · simp [hx]
    · simp only [List.cons_append, List.takeWhile_cons, ne_eq, hx, not_false_eq_true,
        decide_True, if_true, List.cons.injEq, true_and]
      exact ih

theorem uuidOf_loginRequest (uuid : Uuid) (N : Nat) (out : List Nat) (hu : uuid.length ≤ 40) :
    uuidOf (Client.loginRequest uuid N out) = uuid.takeWhile fun c => decide (c ≠ 0) := by
  unfold uuidOf Client.loginRequest
  simp only []
  rw [List.take_of_length_le (by simp; omega)]
  exact takeWhile_append_replicate uuid _

theorem packets_no_fault (env : Env) (hd : env.fault.g_flaky_data = 0) (p : List Nat)
    (h32 : ∀ v ∈ p, v < U32) (s : Nat) :
    (List.range (p.length - s)).map (packetAt env p s 0)
      = (p.drop s).map fun v => Protocal.Message.dataPacket ⟨v⟩ := by
  apply List.ext_getElem (by simp)
  intro i h1 h2
  have hi : i < p.length - s := by simpa using h1
  have hlt : s + i < p.length := by omega
  simp only [List.getElem_map, List.getElem_range, packetAt,
    FaultInjection.FlakyData_of_knob_zero env.fault hd, Nat.add_zero, List.getElem_drop,
    List.getD_eq_getElem p 0 hlt]
  rw [Nat.mod_eq_of_lt (h32 _ (List.getElem_mem _))]

end Server

theorem transfer_no_fault (env : Server.Env) (fault : FaultInjection.Faults)
    (shared stored : Server.SharedState) (uuid : Server.Uuid) (N : Nat) (out p : List Nat)
    (t : Server.Time) (m : Nat)
    (hu : uuid.length ≤ 40) (hN : N < U32) (hout : out.length < U32)
    (hres : Server.resolve env shared (uuid.takeWhile fun c => decide (c ≠ 0)) N
      = (⟨p, t, m⟩, stored))
    (hlen : p.length = N) (h32 : ∀ v ∈ p, v < U32)
    (hsc : env.fault.g_flaky_connection = 0) (hsd : env.fault.g_flaky_data = 0)
    (hcc : fault.g_flaky_connection = 0) (hcd : fault.g_flaky_data = 0)
    (hs : ∀ i, env.send_ok i = true) :
    (Server.ProcessTransmission env shared (some (Client.loginRequest uuid N out))).sent =
      .loginConfirmed ⟨min m out.length, N⟩ ::
        (((p.drop (min m out.length)).map fun v => Protocal.Message.dataPacket ⟨v⟩) ++
          [.dataComplete ⟨Common.ComputeChecksum p⟩]) ∧
    (Server.ProcessTransmission env shared (some (Client.loginRequest uuid N out))).exit
      = .complete ∧
    Client.ProcessTransmission fault (handlerStream env shared) uuid N out =
      ⟨if Common.ComputeChecksum (out.take (min m out.length) ++ p.drop (min m out.length)
            ++ out.drop (min m out.length + (N - min m out.length)))
          = Common.ComputeChecksum p
          then Client.ReturnCode.Success else Client.ReturnCode.CorruptedDownload,
        out.take (min m out.length) ++ p.drop (min m out.length)
          ++ out.drop (min m out.length + (N - min m out.length)),
        [Client.loginRequest uuid N out], N - min m out.length + 3⟩ ∧
    ((Server.ProcessTransmission env shared
        (some (Client.loginRequest uuid N out))).shared.GetTransmission
        (uuid.takeWhile fun c => decide (c ≠ 0))).payload
      = (stored.GetTransmission (uuid.takeWhile fun c => decide (c ≠ 0))).payload := by
  have hkey := Server.uuidOf_loginRequest uuid N out hu
  have hN' : (Client.loginRequest uuid N out).N = N := rfl
  have hseen : (Client.loginRequest uuid N out).packets_seen = out.length :=
    Nat.mod_eq_of_lt hout
  have hres' : Server.resolve env shared (Server.uuidOf (Client.loginRequest uuid N out))
      (Client.loginRequest uuid N out).N = (⟨p, t, m⟩, stored) := by
    rw [hkey, hN']; exact hres
  have hmem := Server.resolve_mem_keys env shared
    (Server.uuidOf (Client.loginRequest uuid N out)) (Client.loginRequest uuid N out).N
  rw [hres', hkey] at hmem
  obtain ⟨sh2, h2, hz, hp⟩ := Server.ProcessTransmission_no_drop env shared
    (Client.loginRequest uuid N out) (by rw [hres']; exact hlen) (fun i _ => hs i)
    (fun i _ => FaultInjection.FlakyConnection_of_knob_zero env.fault hsc i)
  rw [hres'] at h2 hz hp
  simp only [hN', hseen, hkey] at h2 hz hp
  rw [← hlen, Server.packets_no_fault env hsd p h32, hlen, Nat.mod_eq_of_lt hN] at h2
  have hsent := congrArg Server.Result.sent h2
  have hexit := congrArg Server.Result.exit h2
  simp only [] at hsent hexit
  refine ⟨hsent, hexit, ?_, ?_⟩
  swap
  · rw [h2]
    rcases Nat.eq_zero_or_pos (N - min m out.length) with hc | hc
    · rw [hz hc]
    · rw [(Server.GetTransmission_setLastSent stored sh2 _ _ _ hmem (hp hc)).1]
  apply Client.ProcessTransmission_no_fault fault hcc hcd (handlerStream env shared) uuid N out
    (min m out.length) (Common.ComputeChecksum p) (p.drop (min m out.length)) [] hu
  · unfold handlerStream
    rw [hsent]
    simp only [Protocal.wire, Protocal.Message.words, Protocal.wire_packets]
    rfl
  · rw [List.length_drop, hlen]
  · intro w hw
    exact h32 w (List.mem_of_mem_drop hw)
  · exact Nat.min_le_right _ _

namespace Server

theorem resolve_of_absent (env : Env) (shared : SharedState) (uuid : Uuid) (N : Nat)
    (h : uuid ∉ keys shared.client_id_2_state) :
    resolve env shared uuid N =
      (⟨generatePayload env.random_src N, 0, 0⟩,
        shared.RegisterNewTransmission uuid (generatePayload env.random_src N)) := by
  unfold resolve
  rw [SharedState.GetTransmission_of_not_mem shared uuid h]
  rfl

theorem resolve_of_stored (env : Env) (shared : SharedState) (uuid : Uuid) (N : Nat)
    (st : ConnectionState) (h : find shared.client_id_2_state uuid = some st)
    (hne : st.payload ≠ []) : resolve env shared uuid N = (st, shared) := by
  unfold resolve SharedState.GetTransmission
  rw [h]
  simp only []
  rw [if_neg (fun h0 => hne (List.length_eq_zero.mp h0))]

theorem length_generatePayload (random_src : Nat → Nat) (N : Nat) :
    (generatePayload random_src N).length = N := by
  simp [generatePayload]

theorem generatePayload_lt (random_src : Nat → Nat) (N : Nat) :
    ∀ v ∈ generatePayload random_src N, v < U32 := by
  intro v hv
  simp only [generatePayload, List.mem_map] at hv
  obtain ⟨i, _, rfl⟩ := hv
  exact Nat.mod_lt _ (by decide)

end Server

/-- C1 as stated fails: the 3 byte identity `a`, NUL, `b` is not in the store, yet the server
reads its login as the identity `a`, whose session holds 2 values, so the client asking
for `N = 1` ends with `BadRequest` and not `Success`. -/
theorem full_transfer_nul_identity :
    ([97, 0, 98] : Server.Uuid).length ≤ 40 ∧
    ([97, 0, 98] : Server.Uuid) ∉ Server.keys Scenario.storeA2.client_id_2_state ∧
    (Client.ProcessTransmission FaultInjection.disabled
      (handlerStream Scenario.env Scenario.storeA2) [97, 0, 98] 1 []).code
      = Client.ReturnCode.BadRequest := by
  decide

/-- C1, amended. For every `N` (a `uint32_t`) and every identity of at most 40 bytes whose
wire form, its bytes before the first NUL, is not yet in the Session Store: with fault
injection disabled on both sides and no transport failure, the handler run against
`Client::ProcessTransmission` started with an empty payload ends with the client's
payload equal to the payload the server generated and registered, of length `N`, the
client's checksum equal to the checksum in the last message the server sent, and the
client returning `Success`. -/
theorem full_transfer (env : Server.Env) (fault : FaultInjection.Faults)
    (shared : Server.SharedState) (uuid : Server.Uuid) (N : Nat)
    (hu : uuid.length ≤ 40) (hN : N < U32)
    (habsent : (uuid.takeWhile fun c => decide (c ≠ 0)) ∉ Server.keys shared.client_id_2_state)
    (hsc : env.fault.g_flaky_connection = 0) (hsd : env.fault.g_flaky_data = 0)
    (hcc : fault.g_flaky_connection = 0) (hcd : fault.g_flaky_data = 0)
    (hs : ∀ i, env.send_ok i = true) :
    (Client.ProcessTransmission fault (handlerStream env shared) uuid N []).out_payload
      = Server.generatePayload env.random_src N ∧
    ((Server.ProcessTransmission env shared
        (some (Client.loginRequest uuid N []))).shared.GetTransmission
        (uuid.takeWhile fun c => decide (c ≠ 0))).payload
      = Server.generatePayload env.random_src N ∧
    (Client.ProcessTransmission fault (handlerStream env shared) uuid N []).out_payload.length
      = N ∧
    (Server.ProcessTransmission env shared (some (Client.loginRequest uuid N []))).sent.getLast?
      = some (.dataComplete ⟨Common.ComputeChecksum
          (Client.ProcessTransmission fault (handlerStream env shared) uuid N []).out_payload⟩) ∧
    (Client.ProcessTransmission fault (handlerStream env shared) uuid N []).code
      = Client.ReturnCode.Success := by
  have hres := Server.resolve_of_absent env shared _ N habsent
  obtain ⟨hsent, -, hcl, hpay⟩ := transfer_no_fault env fault shared _ uuid N []
    (Server.generatePayload env.random_src N) 0 0 hu hN (by decide) hres
    (Server.length_generatePayload _ _) (Server.generatePayload_lt _ _) hsc hsd hcc hcd hs
  have hgen : (shared.RegisterNewTransmission (uuid.takeWhile fun c => decide (c ≠ 0))
      (Server.generatePayload env.random_src N)).GetTransmission
      (uuid.takeWhile fun c => decide (c ≠ 0))
      = Server.ConnectionState.ofPayload (Server.generatePayload env.random_src N) := by
    unfold Server.SharedState.GetTransmission
    rw [Server.SharedState.find_RegisterNewTransmission, if_pos ⟨rfl, habsent⟩]
  simp only [List.length_nil, Nat.min_zero, Nat.zero_le, Nat.min_eq_right, List.take_zero,
    List.drop_zero, List.nil_append, List.drop_nil, List.append_nil, if_true] at hcl hsent
  rw [hcl, hsent, hpay, hgen]
  refine ⟨rfl, rfl, Server.length_generatePayload _ _, ?_, rfl⟩
  rw [List.getLast?_cons, List.getLast?_append]
  rfl

theorem full_transfer_witness :
    (Client.ProcessTransmission FaultInjection.disabled
      (handlerStream Scenario.env Server.SharedState.empty) [97, 98, 99] 5 []).out_payload
      = [7, 17, 27, 37, 47] ∧
    (Client.ProcessTransmission FaultInjection.disabled
      (handlerStream Scenario.env Server.SharedState.empty) [97, 98, 99] 5 []).code
      = Client.ReturnCode.Success :=
  have h := full_transfer Scenario.env FaultInjection.disabled Server.SharedState.empty
    [97, 98, 99] 5 (by decide) (by decide) (by decide) rfl rfl rfl rfl (fun _ => rfl)
  ⟨h.1.trans (by decide), h.2.2.2.2⟩

/-- C3. Resume correctness. Let `N >= 1`, let the store hold, for the identity the server
reads from the login, a payload `p` of length `N` with `last_sent = m` (any `m`, so in
particular every `m < N`), and let the client hold the first `k <= N` elements of `p`.  A reconnect with `packets_seen = k`,
no injected faults and no transport failure makes the server confirm the resume index
`min(m, k)` and redeliver from there; the client overwrites the indices it already
holds and appends the others, so that its payload ends identical to `p`, of length
exactly `N`, and it returns `Success`. -/
theorem resume_transfer (env : Server.Env) (fault : FaultInjection.Faults)
    (shared : Server.SharedState) (uuid : Server.Uuid) (N : Nat) (p : List Nat)
    (t : Server.Time) (m k : Nat)
    (hu : uuid.length ≤ 40) (hN1 : 1 ≤ N) (hN : N < U32)
    (hst : Server.find shared.client_id_2_state (uuid.takeWhile fun c => decide (c ≠ 0))
      = some ⟨p, t, m⟩)
    (hlen : p.length = N) (h32 : ∀ v ∈ p, v < U32) (hk : k ≤ N)
    (hsc : env.fault.g_flaky_connection = 0) (hsd : env.fault.g_flaky_data = 0)
    (hcc : fault.g_flaky_connection = 0) (hcd : fault.g_flaky_data = 0)
    (hs : ∀ i, env.send_ok i = true) :
    (Server.ProcessTransmission env shared
        (some (Client.loginRequest uuid N (p.take k)))).sent =
      .loginConfirmed ⟨min m k, N⟩ ::
        (((p.drop (min m k)).map fun v => Protocal.Message.dataPacket ⟨v⟩) ++
          [.dataComplete ⟨Common.ComputeChecksum p⟩]) ∧
    (∀ pi v, pi < k → Client.store (p.take k) pi v = (p.take k).set pi v) ∧
    (∀ out : List Nat, ∀ v, Client.store out out.length v = out ++ [v]) ∧
    (Client.ProcessTransmission fault (handlerStream env shared) uuid N (p.take k)).out_payload
      = p ∧
    (Client.ProcessTransmission fault (handlerStream env shared) uuid N
      (p.take k)).out_payload.length = N ∧
    (Client.ProcessTransmission fault (handlerStream env shared) uuid N (p.take k)).code
      = Client.ReturnCode.Success := by
  have hne : p ≠ [] := by
    intro h0
    rw [h0] at hlen
    simp at hlen
    omega
  have hres := Server.resolve_of_stored env shared _ N ⟨p, t, m⟩ hst hne
  have hkl : (p.take k).length = k := by
    rw [List.length_take, hlen]; exact Nat.min_eq_left hk
  obtain ⟨hsent, -, hcl, -⟩ := transfer_no_fault env fault shared shared uuid N (p.take k)
    p t m hu hN (by rw [hkl]; omega) hres hlen h32 hsc hsd hcc hcd hs
  rw [hkl] at hsent hcl
  have hout : List.take (min m k) (List.take k p) ++ List.drop (min m k) p
      ++ List.drop (min m k + (N - min m k)) (List.take k p) = p := by
    have e1 : List.take (min m k) (List.take k p) = List.take (min m k) p := by
      rw [List.take_take, Nat.min_eq_left (Nat.min_le_right m k)]
    have e2 : List.drop (min m k + (N - min m k)) (List.take k p) = [] := by
      apply List.drop_eq_nil_of_le
      rw [hkl]
      have := Nat.min_le_right m k
      omega
    rw [e1, e2, List.append_nil, List.take_append_drop]
  rw [hout] at hcl
  rw [hcl]
  refine ⟨hsent, ?_, ?_, rfl, hlen, ?_⟩
  · intro pi v hpi
    unfold Client.store
    rw [if_pos (by rw [hkl]; exact hpi)]
  · intro out v
    unfold Client.store
    rw [if_neg (Nat.lt_irrefl _)]
  · simp

/-- The scenario of the specification: `N = 5`, server `last_sent = 1`, client holding
indices 0 and 1: the server confirms `sending_from = 1` and redelivers index 1, then
2, 3, 4; the client ends with the 5 original values. -/
theorem resume_transfer_witness :
    Server.find Scenario.storeInterrupted.client_id_2_state [97, 98, 99]
      = some ⟨[10, 11, 12, 13, 14], 1001, 1⟩ ∧
    (Server.ProcessTransmission Scenario.env Scenario.storeInterrupted
        (some (Client.loginRequest [97, 98, 99] 5 [10, 11]))).sent =
      [.loginConfirmed ⟨1, 5⟩, .dataPacket ⟨11⟩, .dataPacket ⟨12⟩, .dataPacket ⟨13⟩,
        .dataPacket ⟨14⟩, .dataComplete ⟨Common.ComputeChecksum [10, 11, 12, 13, 14]⟩] ∧
    (Client.ProcessTransmission FaultInjection.disabled
      (handlerStream Scenario.env Scenario.storeInterrupted) [97, 98, 99] 5
      [10, 11]).out_payload = [10, 11, 12, 13, 14] ∧
    (Client.ProcessTransmission FaultInjection.disabled
      (handlerStream Scenario.env Scenario.storeInterrupted) [97, 98, 99] 5 [10, 11]).code
      = Client.ReturnCode.Success :=
  have h := resume_transfer Scenario.env FaultInjection.disabled Scenario.storeInterrupted
    [97, 98, 99] 5 [10, 11, 12, 13, 14] 1001 1 2 (by decide) (by decide) (by decide)
    (by decide) rfl (by decide) (by decide) rfl rfl rfl rfl (fun _ => rfl)
  ⟨by decide, h.1, h.2.2.2.1, h.2.2.2.2.2⟩

namespace Server

theorem ProcessTransmission_head (env : Env) (shared : SharedState)
    (login : Protocal.LoginRequest) :
    (ProcessTransmission env shared (some login)).sent.head? =
      if env.send_ok 0 then
        some (.loginConfirmed
          ⟨min (resolve env shared (uuidOf login) login.N).1.last_sent login.packets_seen,
            (resolve env shared (uuidOf login) login.N).1.payload.length % U32⟩)
      else none := by
  unfold ProcessTransmission
  simp only []
  by_cases h0 : env.send_ok 0 = true
  · rw [if_pos h0, if_pos h0]
    split
    · rfl
    · split
      · rfl
      · split <;> rfl
  · rw [if_neg h0, if_neg h0]
    rfl

/-- C2 as stated fails for a stored session with an empty payload: after a login of `a`
with `N = 0` the identity is present with `p = []`, and a login of `a` with `N = 3` is
confirmed with `sending_total = 3`, not `len(p) = 0`. -/
theorem confirmation_of_empty_session :
    find Scenario.storeA0.client_id_2_state [97] = some ⟨[], 0, 0⟩ ∧
    uuidOf ⟨[97], 3, 0⟩ = [97] ∧
    (ProcessTransmission Scenario.env Scenario.storeA0 (some ⟨[97], 3, 0⟩)).sent.head?
      = some (.loginConfirmed ⟨0, 3⟩) ∧
    (ProcessTransmission Scenario.env Scenario.storeA0 (some ⟨[97], 3, 0⟩)).sent.head?
      ≠ some (.loginConfirmed ⟨min 0 0, ([] : List Nat).length⟩) := by
  decide

/-- C2, amended. For every login whose identity is present in the Session Store with a
non-empty payload `p` (of a length that fits `uint32_t`) and recorded `last_sent = m`,
the first message the handler sends is a `LoginConfirmed` with
`sending_from = min(m, packets_seen)` and `sending_total = len(p)`, whether or not
`len(p)` equals the requested `N`: it precedes the mismatch test and every data packet,
and only a failing send of the confirmation itself leaves it unsent. -/
theorem confirmation_first (env : Env) (shared : SharedState) (login : Protocal.LoginRequest)
    (p : List Nat) (t : Time) (m : Nat)
    (hst : find shared.client_id_2_state (uuidOf login) = some ⟨p, t, m⟩)
    (hne : p ≠ []) (hp : p.length < U32) :
    (env.send_ok 0 = true →
      ∃ rest, (ProcessTransmission env shared (some login)).sent =
        .loginConfirmed ⟨min m login.packets_seen, p.length⟩ :: rest) ∧
    (env.send_ok 0 = false → (ProcessTransmission env shared (some login)).sent = []) ∧
    (env.send_ok 0 = true → p.length ≠ login.N →
      (ProcessTransmission env shared (some login)).sent =
        [.loginConfirmed ⟨min m login.packets_seen, p.length⟩]) := by
  have hres := resolve_of_stored env shared (uuidOf login) login.N ⟨p, t, m⟩ hst hne
  have hhead := ProcessTransmission_head env shared login
  rw [hres] at hhead
  simp only [Nat.mod_eq_of_lt hp] at hhead
  refine ⟨fun h0 => ?_, fun h0 => ?_, fun h0 hmis => ?_⟩
  · rw [h0, if_pos rfl] at hhead
    cases hsent : (ProcessTransmission env shared (some login)).sent with
    | nil => rw [hsent] at hhead; simp at hhead
    | cons x rest =>
      rw [hsent] at hhead
      simp only [List.head?_cons, Option.some.injEq] at hhead
      exact ⟨rest, by rw [hhead]⟩
  · unfold ProcessTransmission
    simp only [h0]
    rfl
  · unfold ProcessTransmission
    simp only [h0, if_true, hres, ne_eq, hmis, not_false_eq_true, Nat.mod_eq_of_lt hp]

theorem confirmation_first_witness :
    find Scenario.storeInterrupted.client_id_2_state (uuidOf ⟨[97, 98, 99], 4, 3⟩)
      = some ⟨[10, 11, 12, 13, 14], 1001, 1⟩ ∧
    (ProcessTransmission Scenario.env Scenario.storeInterrupted
      (some ⟨[97, 98, 99], 4, 3⟩)).sent = [.loginConfirmed ⟨1, 5⟩] :=
  ⟨by decide,
    (confirmation_first Scenario.env Scenario.storeInterrupted ⟨[97, 98, 99], 4, 3⟩
      [10, 11, 12, 13, 14] 1001 1 (by decide) (by decide) (by decide)).2.2 rfl (by decide)⟩

end Server

/-- C5 as stated fails for a stored session with an empty payload: the identity `a` is
registered (by a login with `N = 0`), a login of `a` with `N = 2` differs from the
stored length `0`, yet the handler streams two data packets and a checksum, the store
changes, and the client returns `Success`. -/
theorem mismatch_of_empty_session :
    Server.find Scenario.storeA0.client_id_2_state [97] = some ⟨[], 0, 0⟩ ∧
    (Server.ProcessTransmission Scenario.env Scenario.storeA0
        (some (Client.loginRequest [97] 2 []))).sent =
      [.loginConfirmed ⟨0, 2⟩, .dataPacket ⟨7⟩, .dataPacket ⟨17⟩,
        .dataComplete ⟨Common.ComputeChecksum [7, 17]⟩] ∧
    (Server.ProcessTransmission Scenario.env Scenario.storeA0
        (some (Client.loginRequest [97] 2 []))).shared ≠ Scenario.storeA0 ∧
    (Client.ProcessTransmission FaultInjection.disabled
      (handlerStream Scenario.env Scenario.storeA0) [97] 2 []).code
      = Client.ReturnCode.Success := by
  decide

/-- C5, amended. Let the identity `id` have a session with a non-empty payload `p`
registered in the Session Store.  For every login for `id` whose requested `N` differs from
`len(p)`, the handler sends the `LoginConfirmed` message and then terminates with no
data packet and no checksum sent and the Session Store unchanged; and the client that
sent such a login returns `BadRequest` on receiving that confirmation, its accumulated
payload unchanged. -/
theorem mismatch_bad_request (env : Server.Env) (shared : Server.SharedState)
    (id : Server.Uuid) (p : List Nat) (t : Server.Time) (m : Nat)
    (hst : Server.find shared.client_id_2_state id = some ⟨p, t, m⟩)
    (hne : p ≠ []) (hp : p.length < U32) (hs0 : env.send_ok 0 = true) :
    (∀ login : Protocal.LoginRequest, Server.uuidOf login = id → p.length ≠ login.N →
      (Server.ProcessTransmission env shared (some login)).sent =
        [.loginConfirmed ⟨min m login.packets_seen, p.length⟩] ∧
      (Server.ProcessTransmission env shared (some login)).exit = .mismatch ∧
      (Server.ProcessTransmission env shared (some login)).shared = shared) ∧
    (∀ (fault : FaultInjection.Faults) (uuid : Server.Uuid) (N : Nat) (out : List Nat),
      uuid.length ≤ 40 → (uuid.takeWhile fun c => decide (c ≠ 0)) = id → p.length ≠ N →
      Client.ProcessTransmission fault (handlerStream env shared) uuid N out =
        ⟨.BadRequest, out, [Client.loginRequest uuid N out], 2⟩) := by
  have hserver : ∀ login : Protocal.LoginRequest, Server.uuidOf login = id →
      p.length ≠ login.N →
      Server.ProcessTransmission env shared (some login) =
        ⟨shared, [.loginConfirmed ⟨min m login.packets_seen, p.length⟩], .mismatch⟩ := by
    intro login hid hmis
    have hres := Server.resolve_of_stored env shared id login.N ⟨p, t, m⟩ hst hne
    unfold Server.ProcessTransmission
    simp only [hs0, if_true, hid, hres, ne_eq, hmis, not_false_eq_true, Nat.mod_eq_of_lt hp]
  refine ⟨fun login hid hmis => ?_, fun fault uuid N out hu hid hmis => ?_⟩
  · rw [hserver login hid hmis]
    exact ⟨rfl, rfl, rfl⟩
  · have hkey := Server.uuidOf_loginRequest uuid N out hu
    have h := hserver (Client.loginRequest uuid N out) (hkey.trans hid) hmis
    unfold Client.ProcessTransmission
    rw [if_neg (Nat.not_lt.mpr hu)]
    simp only [handlerStream, h, Protocal.wire, Protocal.Message.words, List.append_nil,
      List.singleton_append, ne_eq, hmis, not_false_eq_true, if_true]

theorem mismatch_bad_request_witness :
    Server.find Scenario.storeInterrupted.client_id_2_state [97, 98, 99]
      = some ⟨[10, 11, 12, 13, 14], 1001, 1⟩ ∧
    Client.ProcessTransmission FaultInjection.disabled
      (handlerStream Scenario.env Scenario.storeInterrupted) [97, 98, 99] 4 [10, 11, 12]
      = ⟨.BadRequest, [10, 11, 12], [Client.loginRequest [97, 98, 99] 4 [10, 11, 12]], 2⟩ :=
  ⟨by decide,
    (mismatch_bad_request Scenario.env Scenario.storeInterrupted [97, 98, 99]
      [10, 11, 12, 13, 14] 1001 1 (by decide) (by decide) (by decide) rfl).2
      FaultInjection.disabled [97, 98, 99] 4 [10, 11, 12] (by decide) (by decide) (by decide)⟩

namespace Server

/-- C6, the failing run. From the empty store, a completed login of `a` with `N = 0`
followed by a completed login of `a` with `N = 2` reaches a store whose only session
has an empty payload and `last_sent = 1`, which breaks `last_sent <= len(payload)`. -/
theorem session_invariant_broken :
    Reachable (ProcessTransmission Scenario.env Scenario.storeA0
      (some (Client.loginRequest [97] 2 []))).shared ∧
    (ProcessTransmission Scenario.env Scenario.storeA0
      (some (Client.loginRequest [97] 2 []))).shared.client_id_2_state
        = [([97], ⟨[], 1001, 1⟩)] ∧
    ¬ SessionInvariant (ProcessTransmission Scenario.env Scenario.storeA0
      (some (Client.loginRequest [97] 2 []))).shared :=
  ⟨Reachable.run _ _ _ (Reachable.run _ _ _ Reachable.start), by decide, by decide⟩

theorem find_filter (l : List (Uuid × ConnectionState)) (hnd : (keys l).Nodup)
    (q : Uuid × ConnectionState → Bool) (id : Uuid) :
    find (l.filter q) id = (find l id).bind fun st => if q (id, st) then some st else none := by
  induction l with
  | nil => rfl
  | cons e rest ih =>
    obtain ⟨k, v⟩ := e
    have hnd2 : k ∉ keys rest ∧ (keys rest).Nodup := List.nodup_cons.mp hnd
    have ih2 := ih hnd2.2
    by_cases hk : k = id
    · subst hk
      have hnone : find (rest.filter q) k = none := by
        rw [find_eq_none_iff]
        intro hmem
        exact hnd2.1 ((List.Sublist.map Prod.fst (List.filter_sublist rest)).subset hmem)
      by_cases hq : q (k, v) = true
      · simp [List.filter_cons, hq, find_cons]
      · simp [List.filter_cons, hq, find_cons, hnone]
    · by_cases hq : q (k, v) = true
      · simp [List.filter_cons, hq, find_cons, hk, ih2]
      · simp [List.filter_cons, hq, find_cons, hk, ih2]

theorem GetTransmission_payload_setLastSent (s s2 : SharedState) (uuid id : Uuid) (n : Nat)
    (t : Time) (h : s2.client_id_2_state = setLastSent s.client_id_2_state uuid n t) :
    (s2.GetTransmission id).payload = (s.GetTransmission id).payload := by
  unfold SharedState.GetTransmission
  rw [h, find_setLastSent]
  by_cases hid : id = uuid
  · subst hid
    rw [if_pos rfl]
    cases find s.client_id_2_state id <;> rfl
  · rw [if_neg hid]

theorem SetTransmissionLastSent_eq_some (s s2 : SharedState) (id : Uuid) (n : Nat) (t : Time)
    (h : s.SetTransmissionLastSent id n t = some s2) :
    s2.client_id_2_state = setLastSent s.client_id_2_state id n t := by
  unfold SharedState.SetTransmissionLastSent at h
  by_cases hm : id ∈ keys s.client_id_2_state
  · rw [if_pos hm] at h
    cases h
    rfl
  · rw [if_neg hm] at h
    cases h

theorem streamLoop_payload (env : Env) (uuid id : Uuid) (payload : List Nat) (count : Nat) :
    ∀ (pi k : Nat) (shared : SharedState),
      ((streamLoop env uuid payload count pi k shared).1.GetTransmission id).payload
        = (shared.GetTransmission id).payload := by
  induction count with
  | zero => intro pi k shared; rfl
  | succ c ih =>
    intro pi k shared
    unfold streamLoop
    simp only []
    split
    · split
      · rfl
      · rename_i sh1 h1
        have hl := SetTransmissionLastSent_eq_some _ _ _ _ _ h1
        have hp := GetTransmission_payload_setLastSent shared sh1 uuid id _ _ hl
        split
        · exact hp
        · rw [ih, hp]
    · rfl

theorem ProcessTransmission_payload (env : Env) (shared : SharedState)
    (login : Protocal.LoginRequest) (id : Uuid) :
    ((ProcessTransmission env shared (some login)).shared.GetTransmission id).payload
      = ((resolve env shared (uuidOf login) login.N).2.GetTransmission id).payload := by
  unfold ProcessTransmission
  simp only []
  split
  · split
    · rfl
    · split
      · exact streamLoop_payload _ _ _ _ _ _ _ _
      · split <;> exact streamLoop_payload _ _ _ _ _ _ _ _
  · rfl

theorem find_of_mem (l : List (Uuid × ConnectionState)) (hnd : (keys l).Nodup) (k : Uuid)
    (v : ConnectionState) (h : (k, v) ∈ l) : find l k = some v := by
  induction l with
  | nil => simp at h
  | cons e rest ih =>
    obtain ⟨k2, v2⟩ := e
    have hnd2 : k2 ∉ keys rest ∧ (keys rest).Nodup := List.nodup_cons.mp hnd
    rcases List.mem_cons.mp h with heq | hmem
    · cases heq
      rw [find_cons, if_pos rfl]
    · have hne : k2 ≠ k := by
        intro hk
        subst hk
        exact hnd2.1 (List.mem_map.mpr ⟨(k2, v), hmem, rfl⟩)
      rw [find_cons, if_neg hne]
      exact ih hnd2.2 hmem

theorem setLastSent_invariant (l : List (Uuid × ConnectionState)) (uuid : Uuid)
    (payload : List Nat) (pi : Nat) (t : Time) (hpi : pi < payload.length)
    (hinv : NonEmptyInvariant l) (hlink : Linked l uuid payload) :
    NonEmptyInvariant (setLastSent l uuid pi t) ∧ Linked (setLastSent l uuid pi t) uuid payload := by
  constructor
  · intro e he hne
    obtain ⟨e0, he0, rfl⟩ := List.mem_map.mp he
    by_cases hk : e0.1 = uuid
    · rw [if_pos hk] at hne ⊢
      rcases hlink e0 he0 hk with h0 | h1
      · exact absurd h0 hne
      · show pi < e0.2.payload.length
        rw [h1]; exact hpi
    · rw [if_neg hk] at hne ⊢
      exact hinv e0 he0 hne
  · intro e he hk
    obtain ⟨e0, he0, rfl⟩ := List.mem_map.mp he
    by_cases hk0 : e0.1 = uuid
    · rw [if_pos hk0]
      exact hlink e0 he0 hk0
    · rw [if_neg hk0] at hk ⊢
      exact hlink e0 he0 hk

theorem streamLoop_invariant (env : Env) (uuid : Uuid) (payload : List Nat) (count : Nat) :
    ∀ (pi k : Nat) (shared : SharedState), pi + count ≤ payload.length →
      NonEmptyInvariant shared.client_id_2_state →
      Linked shared.client_id_2_state uuid payload →
      NonEmptyInvariant (streamLoop env uuid payload count pi k shared).1.client_id_2_state := by
  induction count with
  | zero => intro pi k shared _ hinv _; exact hinv
  | succ c ih =>
    intro pi k shared hle hinv hlink
    unfold streamLoop
    simp only []
    split
    · split
      · exact hinv
      · rename_i sh1 h1
        have hl := SetTransmissionLastSent_eq_some _ _ _ _ _ h1
        have h2 := setLastSent_invariant shared.client_id_2_state uuid payload pi (env.now k)
          (by omega) hinv hlink
        rw [← hl] at h2
        split
        · exact h2.1
        · exact ih (pi + 1) (k + 1) sh1 (by omega) h2.1 h2.2
    · exact hinv

theorem resolve_invariant (env : Env) (shared : SharedState) (uuid : Uuid) (N : Nat)
    (hinv : NonEmptyInvariant shared.client_id_2_state) :
    NonEmptyInvariant (resolve env shared uuid N).2.client_id_2_state ∧
    Linked (resolve env shared uuid N).2.client_id_2_state uuid
      (resolve env shared uuid N).1.payload := by
  unfold resolve
  by_cases h0 : (shared.GetTransmission uuid).payload.length = 0
  · simp only [h0, if_true]
    unfold SharedState.RegisterNewTransmission
    by_cases hm : uuid ∈ keys shared.client_id_2_state
    · rw [dif_pos hm]
      refine ⟨hinv, fun e he hk => Or.inl ?_⟩
      have hf := find_of_mem shared.client_id_2_state shared.nodup e.1 e.2 he
      rw [hk] at hf
      unfold SharedState.GetTransmission at h0
      rw [hf] at h0
      exact List.length_eq_zero.mp h0
    · rw [dif_neg hm]
      constructor
      · intro e he hne
        rcases List.mem_cons.mp he with heq | hmem
        · rw [heq] at hne ⊢
          exact List.length_pos.mpr hne
        · exact hinv e hmem hne
      · intro e he hk
        rcases List.mem_cons.mp he with heq | hmem
        · rw [heq]; exact Or.inr rfl
        · exact absurd (List.mem_map.mpr ⟨e, hmem, hk⟩) hm
  · simp only [h0, if_false]
    refine ⟨hinv, fun e he hk => Or.inr ?_⟩
    have hf := find_of_mem shared.client_id_2_state shared.nodup e.1 e.2 he
    rw [hk] at hf
    unfold SharedState.GetTransmission
    rw [hf]

theorem reachable_nonempty_invariant (shared : SharedState) (h : Reachable shared) :
    NonEmptyInvariant shared.client_id_2_state := by
  induction h with
  | start => intro e he; simp [SharedState.empty] at he
  | run env recv shared _ ih =>
    cases recv with
    | none => exact ih
    | some login =>
      have hr := resolve_invariant env shared (uuidOf login) login.N ih
      have hloop := fun hlen : (resolve env shared (uuidOf login) login.N).1.payload.length
          = login.N =>
        streamLoop_invariant env (uuidOf login)
          (resolve env shared (uuidOf login) login.N).1.payload
          ((resolve env shared (uuidOf login) login.N).1.payload.length
            - min (resolve env shared (uuidOf login) login.N).1.last_sent login.packets_seen)
          (min (resolve env shared (uuidOf login) login.N).1.last_sent login.packets_seen) 0
          (resolve env shared (uuidOf login) login.N).2
      unfold ProcessTransmission
      simp only []
      split
      · split
        · exact hr.1
        · rename_i hlen
          have hlen2 := not_not.mp hlen
          by_cases hle : min (resolve env shared (uuidOf login) login.N).1.last_sent
              login.packets_seen ≤ (resolve env shared (uuidOf login) login.N).1.payload.length
          · have hgood := hloop hlen2 (by omega) hr.1 hr.2
            split
            · exact hgood
            · split <;> exact hgood
          · have hz : (resolve env shared (uuidOf login) login.N).1.payload.length
                - min (resolve env shared (uuidOf login) login.N).1.last_sent
                    login.packets_seen = 0 := by omega
            rw [hz]
            split
            · exact hr.1
            · split <;> exact hr.1
      · exact hr.1
  | expire now shared _ ih =>
    intro e he hne
    exact ih e (List.mem_of_mem_filter he) hne

/-- C7. Expiry. `RemoveExpiredSessions` at time `now` keeps exactly the entries whose
`last_seen` is not earlier than `now - 30s`, each unchanged: an identity whose session
is that old is no longer mapped, every other identity maps to what it did.  A later
login for a purged identity, whatever its `packets_seen`, is treated as unseen: step 2
generates a payload of `N` values and registers it, so that it is the stored payload
after the run, and the confirmation carries `sending_from = 0`. -/
theorem expiry_then_fresh_session (s : SharedState) (now : Time) :
    (∀ e, e ∈ (s.RemoveExpiredSessions now).client_id_2_state ↔
      e ∈ s.client_id_2_state ∧ ¬ e.2.last_seen < now - thirty_seconds) ∧
    (∀ id st, find s.client_id_2_state id = some st → st.last_seen < now - thirty_seconds →
      find (s.RemoveExpiredSessions now).client_id_2_state id = none) ∧
    (∀ id st, find s.client_id_2_state id = some st → ¬ st.last_seen < now - thirty_seconds →
      find (s.RemoveExpiredSessions now).client_id_2_state id = some st) ∧
    (∀ id, find s.client_id_2_state id = none →
      find (s.RemoveExpiredSessions now).client_id_2_state id = none) ∧
    (∀ (env : Env) (login : Protocal.LoginRequest) (st : ConnectionState),
      find s.client_id_2_state (uuidOf login) = some st →
      st.last_seen < now - thirty_seconds →
      resolve env (s.RemoveExpiredSessions now) (uuidOf login) login.N =
        (⟨generatePayload env.random_src login.N, 0, 0⟩,
          (s.RemoveExpiredSessions now).RegisterNewTransmission (uuidOf login)
            (generatePayload env.random_src login.N)) ∧
      (generatePayload env.random_src login.N).length = login.N ∧
      ((ProcessTransmission env (s.RemoveExpiredSessions now)
          (some login)).shared.GetTransmission (uuidOf login)).payload
        = generatePayload env.random_src login.N ∧
      (env.send_ok 0 = true →
        (ProcessTransmission env (s.RemoveExpiredSessions now) (some login)).sent.head?
          = some (.loginConfirmed ⟨0, login.N % U32⟩))) := by
  have hfind : ∀ id, find (s.RemoveExpiredSessions now).client_id_2_state id =
      (find s.client_id_2_state id).bind fun st =>
        if decide (¬ st.last_seen < now - thirty_seconds) then some st else none := by
    intro id
    exact find_filter s.client_id_2_state s.nodup _ id
  have hpurged : ∀ id st, find s.client_id_2_state id = some st →
      st.last_seen < now - thirty_seconds →
      find (s.RemoveExpiredSessions now).client_id_2_state id = none := by
    intro id st h1 h2
    rw [hfind, h1]
    show (if decide (¬ st.last_seen < now - thirty_seconds) = true then some st else none)
      = none
    rw [if_neg (by rw [decide_eq_true_eq]; exact fun h => h h2)]
  refine ⟨fun e => ?_, hpurged, fun id st h1 h2 => ?_, fun id h1 => ?_,
    fun env login st h1 h2 => ?_⟩
  · simp [SharedState.RemoveExpiredSessions, sweep, List.mem_filter]
  · rw [hfind, h1]
    show (if decide (¬ st.last_seen < now - thirty_seconds) = true then some st else none)
      = some st
    rw [if_pos (by rw [decide_eq_true_eq]; exact h2)]
  · rw [hfind, h1]
    rfl
  · have habs : uuidOf login ∉ keys (s.RemoveExpiredSessions now).client_id_2_state :=
      (find_eq_none_iff _ _).mp (hpurged _ st h1 h2)
    have hres := resolve_of_absent env (s.RemoveExpiredSessions now) (uuidOf login) login.N habs
    refine ⟨hres, length_generatePayload _ _, ?_, fun h0 => ?_⟩
    · rw [ProcessTransmission_payload, hres]
      unfold SharedState.GetTransmission
      rw [SharedState.find_RegisterNewTransmission, if_pos ⟨rfl, habs⟩]
      rfl
    · rw [ProcessTransmission_head, if_pos h0, hres]
      simp [length_generatePayload]

theorem expiry_then_fresh_session_witness :
    find Scenario.storeInterrupted.client_id_2_state (uuidOf ⟨[97, 98, 99], 3, 2⟩)
      = some ⟨[10, 11, 12, 13, 14], 1001, 1⟩ ∧
    (1001 : Time) < 30000001002 - thirty_seconds ∧
    (ProcessTransmission Scenario.env
      (Scenario.storeInterrupted.RemoveExpiredSessions 30000001002)
      (some ⟨[97, 98, 99], 3, 2⟩)).sent.head? = some (.loginConfirmed ⟨0, 3⟩) :=
  ⟨by decide, by decide,
    ((expiry_then_fresh_session Scenario.storeInterrupted 30000001002).2.2.2.2
      Scenario.env ⟨[97, 98, 99], 3, 2⟩ ⟨[10, 11, 12, 13, 14], 1001, 1⟩ (by decide)
      (by decide)).2.2.2 rfl⟩

end Server

namespace Client

theorem recvLoop_code_ne_BadUUID (fault : FaultInjection.Faults) (count : Nat) :
    ∀ (pi k : Nat) (rx : List Nat) (got : Nat) (out : List Nat),
      (recvLoop fault count pi k rx got out).1 ≠ ReturnCode.BadUUID := by
  induction count with
  | zero =>
    intro pi k rx got out
    unfold recvLoop
    split
    · simp
    · simp only []
      split <;> simp
  | succ c ih =>
    intro pi k rx got out
    unfold recvLoop
    split
    · simp
    · simp only []
      split
      · simp
      · exact ih _ _ _ _ _

/-- C8 as stated fails: for a 41 byte identity the driver loop does open a connection,
`TCPStream conn(...)` being constructed before `ProcessTransmission` checks the length;
nothing is written to or read from it. -/
theorem bad_uuid_connects :
    (List.replicate 41 (65 : Fin 256)).length > 40 ∧
    main (List.replicate 41 65) 5 [(FaultInjection.disabled, some fun _ => some [])] =
      some ⟨.BadUUID, [], 1, [⟨.BadUUID, [], [], 0⟩]⟩ ∧
    (main (List.replicate 41 65) 5
      [(FaultInjection.disabled, some fun _ => some [])]).map Run.connections ≠ some 0 := by
  decide

/-- C8, amended. For every identity longer than 40 bytes, any `N` and any accumulated
payload, `ProcessTransmission` returns `BadUUID` having sent no login message and
received nothing on the stream it was given, with the accumulated payload unchanged;
the driver loop, which opens the connection before that call, makes this single
attempt on a single connection and stops without retrying.  For every identity of at
most 40 bytes the call does not return `BadUUID`. -/
theorem bad_uuid_rejected (fault : FaultInjection.Faults) (stream : NetStream)
    (uuid : Server.Uuid) (N : Nat) (out : List Nat) :
    (uuid.length > 40 →
      ProcessTransmission fault stream uuid N out = ⟨.BadUUID, out, [], 0⟩ ∧
      ∀ (net : List (FaultInjection.Faults × Option NetStream)) (connections : Nat)
          (attempts : List Attempt),
        driver uuid N ((fault, some stream) :: net) out connections attempts =
          some ⟨.BadUUID, out, connections + 1, attempts ++ [⟨.BadUUID, out, [], 0⟩]⟩) ∧
    (uuid.length ≤ 40 → (ProcessTransmission fault stream uuid N out).code ≠ .BadUUID) := by
  constructor
  · intro h
    have hp : ∀ o, ProcessTransmission fault stream uuid N o = ⟨.BadUUID, o, [], 0⟩ := by
      intro o
      unfold ProcessTransmission
      rw [if_pos h]
    refine ⟨hp out, fun net connections attempts => ?_⟩
    unfold driver
    simp only [hp out]
    rfl
  · intro h
    unfold ProcessTransmission
    rw [if_neg (Nat.not_lt.mpr h)]
    simp only []
    split
    · simp
    · split
      · split
        · simp
        · exact recvLoop_code_ne_BadUUID _ _ _ _ _ _ _
      · simp
      · simp

theorem bad_uuid_rejected_witness :
    (List.replicate 41 (65 : Fin 256)).length > 40 ∧
    ProcessTransmission FaultInjection.disabled (fun _ => some [0, 5]) (List.replicate 41 65)
      5 [1, 2] = ⟨.BadUUID, [1, 2], [], 0⟩ :=
  ⟨by decide,
    ((bad_uuid_rejected FaultInjection.disabled (fun _ => some [0, 5]) (List.replicate 41 65)
      5 [1, 2]).1 (by decide)).1⟩

end Client

namespace Server

theorem find_RemoveExpiredSessions (s : SharedState) (now : Time) (id : Uuid) :
    find (s.RemoveExpiredSessions now).client_id_2_state id =
      (find s.client_id_2_state id).bind fun st =>
        if decide (¬ st.last_seen < now - thirty_seconds) = true then some st else none :=
  find_filter s.client_id_2_state s.nodup _ id

theorem run_keeps_session (s s2 : SharedState) (id : Uuid) (st : ConnectionState)
    (op : StoreOp) (hop : op.touches id = false) (hrun : op.run s = some s2)
    (h : find s.client_id_2_state id = some st) : find s2.client_id_2_state id = some st := by
  have hmem : id ∈ keys s.client_id_2_state := by
    by_contra hn
    rw [(find_eq_none_iff _ _).mpr hn] at h
    cases h
  cases op with
  | register id2 payload =>
    simp only [StoreOp.run, Option.some.injEq] at hrun
    subst hrun
    rw [SharedState.find_RegisterNewTransmission]
    by_cases hc : id = id2 ∧ id2 ∉ keys s.client_id_2_state
    · exact absurd (hc.1 ▸ hmem) hc.2
    · rw [if_neg hc]; exact h
  | setLastSent id2 n t =>
    have hne : id ≠ id2 := by
      intro he
      simp [StoreOp.touches, he] at hop
    simp only [StoreOp.run] at hrun
    rw [SetTransmissionLastSent_eq_some s s2 id2 n t hrun, find_setLastSent, if_neg hne]
    exact h
  | erase id2 =>
    have hne : id ≠ id2 := by
      intro he
      simp [StoreOp.touches, he] at hop
    simp only [StoreOp.run, Option.some.injEq] at hrun
    subst hrun
    show find (eraseKey s.client_id_2_state id2) id = some st
    rw [find_eraseKey, if_neg hne]
    exact h
  | removeExpired now => simp [StoreOp.touches] at hop

theorem runOps_keeps_session (id : Uuid) (st : ConnectionState) (ops : List StoreOp) :
    ∀ s s2 : SharedState, (∀ op ∈ ops, StoreOp.touches id op = false) →
      runOps s ops = some s2 → find s.client_id_2_state id = some st →
      find s2.client_id_2_state id = some st := by
  induction ops with
  | nil =>
    intro s s2 _ hrun h
    simp only [runOps, Option.some.injEq] at hrun
    subst hrun
    exact h
  | cons op ops ih =>
    intro s s2 hops hrun h
    unfold runOps at hrun
    cases h1 : op.run s with
    | none => rw [h1] at hrun; cases hrun
    | some s1 =>
      rw [h1] at hrun
      exact ih s1 s2 (fun o ho => hops o (List.mem_cons_of_mem _ ho)) hrun
        (run_keeps_session s s1 id st op (hops op (List.mem_cons_self _ _)) h1 h)

theorem run_keeps_epoch (s s2 : SharedState) (id : Uuid) (op : StoreOp)
    (hop : op.setsLastSentOf id = false) (hrun : op.run s = some s2)
    (h : ∀ st, find s.client_id_2_state id = some st → st.last_seen = 0) :
    ∀ st, find s2.client_id_2_state id = some st → st.last_seen = 0 := by
  intro st hst
  cases op with
  | register id2 payload =>
    simp only [StoreOp.run, Option.some.injEq] at hrun
    subst hrun
    rw [SharedState.find_RegisterNewTransmission] at hst
    by_cases hc : id = id2 ∧ id2 ∉ keys s.client_id_2_state
    · rw [if_pos hc] at hst
      cases hst
      rfl
    · rw [if_neg hc] at hst
      exact h st hst
  | setLastSent id2 n t =>
    have hne : id ≠ id2 := by
      intro he
      simp [StoreOp.setsLastSentOf, he] at hop
    simp only [StoreOp.run] at hrun
    rw [SetTransmissionLastSent_eq_some s s2 id2 n t hrun, find_setLastSent, if_neg hne] at hst
    exact h st hst
  | erase id2 =>
    simp only [StoreOp.run, Option.some.injEq] at hrun
    subst hrun
    have hst2 : find (eraseKey s.client_id_2_state id2) id = some st := hst
    rw [find_eraseKey] at hst2
    by_cases hc : id = id2
    · rw [if_pos hc] at hst2; cases hst2
    · rw [if_neg hc] at hst2; exact h st hst2
  | removeExpired now =>
    simp only [StoreOp.run, Option.some.injEq] at hrun
    subst hrun
    rw [find_RemoveExpiredSessions] at hst
    cases hf : find s.client_id_2_state id with
    | none => rw [hf] at hst; cases hst
    | some st0 =>
      rw [hf] at hst
      simp only [Option.some_bind] at hst
      by_cases hc : decide (¬ st0.last_seen < now - thirty_seconds) = true
      · rw [if_pos hc] at hst
        rw [← Option.some.inj hst]
        exact h st0 hf
      · rw [if_neg hc] at hst; cases hst

theorem runOps_keeps_epoch (id : Uuid) (ops : List StoreOp) :
    ∀ s s2 : SharedState, (∀ op ∈ ops, StoreOp.setsLastSentOf id op = false) →
      runOps s ops = some s2 →
      (∀ st, find s.client_id_2_state id = some st → st.last_seen = 0) →
      ∀ st, find s2.client_id_2_state id = some st → st.last_seen = 0 := by
  induction ops with
  | nil =>
    intro s s2 _ hrun h
    simp only [runOps, Option.some.injEq] at hrun
    subst hrun
    exact h
  | cons op ops ih =>
    intro s s2 hops hrun h
    unfold runOps at hrun
    cases h1 : op.run s with
    | none => rw [h1] at hrun; cases hrun
    | some s1 =>
      rw [h1] at hrun
      exact ih s1 s2 (fun o ho => hops o (List.mem_cons_of_mem _ ho)) hrun
        (run_keeps_epoch s s1 id op (hops op (List.mem_cons_self _ _)) h1 h)

theorem sweep_removes_epoch_session (s : SharedState) (id : Uuid) (now : Time)
    (hnow : 0 + thirty_seconds < now)
    (h : ∀ st, find s.client_id_2_state id = some st → st.last_seen = 0) :
    find (s.RemoveExpiredSessions now).client_id_2_state id = none ∧
    ∀ (i : Nat) (t : Time), (s.RemoveExpiredSessions now).SetTransmissionLastSent id i t = none := by
  have hnone : find (s.RemoveExpiredSessions now).client_id_2_state id = none := by
    rw [find_RemoveExpiredSessions]
    cases hf : find s.client_id_2_state id with
    | none => rfl
    | some st =>
      have h0 := h st hf
      simp only [Option.some_bind]
      rw [if_neg]
      rw [decide_eq_true_eq, h0]
      intro hc
      exact hc (by linarith)
  exact ⟨hnone, fun i t =>
    SharedState.SetTransmissionLastSent_of_not_mem _ id i t ((find_eq_none_iff _ _).mp hnone)⟩

/-- C12. A session created by `RegisterNewTransmission` (the identity was not mapped) has
`last_seen` equal to the clock epoch `0`, not the time of registration, and
`last_sent = 0`.  It stays exactly so under every sequence of store operations that
holds no `SetTransmissionLastSent` or `EraseTransmission` for its identity and no
sweep, and whatever is stored for the identity has `last_seen` at the epoch as long as
no `SetTransmissionLastSent` for it has run.  Consequently, for every `now` later than
epoch + 30s, `RemoveExpiredSessions` at `now` removes such a session, whatever happened
between its registration and the sweep, and afterwards `SetTransmissionLastSent` for the
identity throws `std::out_of_range`, the identity being absent. -/
theorem registered_session_at_epoch (s : SharedState) (id : Uuid) (p : List Nat)
    (h : id ∉ keys s.client_id_2_state) :
    find (s.RegisterNewTransmission id p).client_id_2_state id = some ⟨p, 0, 0⟩ ∧
    ((s.RegisterNewTransmission id p).GetTransmission id).last_seen = 0 ∧
    (∀ (ops : List StoreOp) (s2 : SharedState),
      (∀ op ∈ ops, StoreOp.touches id op = false) →
      runOps (s.RegisterNewTransmission id p) ops = some s2 →
      find s2.client_id_2_state id = some ⟨p, 0, 0⟩) ∧
    (∀ (ops : List StoreOp) (s2 : SharedState),
      (∀ op ∈ ops, StoreOp.setsLastSentOf id op = false) →
      runOps (s.RegisterNewTransmission id p) ops = some s2 →
      ∀ st, find s2.client_id_2_state id = some st → st.last_seen = 0) ∧
    (∀ (ops : List StoreOp) (s2 : SharedState) (now : Time),
      (∀ op ∈ ops, StoreOp.touches id op = false) →
      runOps (s.RegisterNewTransmission id p) ops = some s2 →
      0 + thirty_seconds < now →
      find s2.client_id_2_state id = some ⟨p, 0, 0⟩ ∧
      find (s2.RemoveExpiredSessions now).client_id_2_state id = none ∧
      ∀ (i : Nat) (t : Time),
        (s2.RemoveExpiredSessions now).SetTransmissionLastSent id i t = none) := by
  have hreg : find (s.RegisterNewTransmission id p).client_id_2_state id
      = some ⟨p, 0, 0⟩ := by
    rw [SharedState.find_RegisterNewTransmission, if_pos ⟨rfl, h⟩]
    rfl
  have hkeep : ∀ (ops : List StoreOp) (s2 : SharedState),
      (∀ op ∈ ops, StoreOp.touches id op = false) →
      runOps (s.RegisterNewTransmission id p) ops = some s2 →
      find s2.client_id_2_state id = some ⟨p, 0, 0⟩ :=
    fun ops s2 hops hrun => runOps_keeps_session id ⟨p, 0, 0⟩ ops _ s2 hops hrun hreg
  refine ⟨hreg, ?_, hkeep, fun ops s2 hops hrun => ?_, fun ops s2 now hops hrun hnow => ?_⟩
  · unfold SharedState.GetTransmission
    rw [hreg]
  · refine runOps_keeps_epoch id ops _ s2 hops hrun ?_
    intro st hst
    rw [hreg] at hst
    rw [← Option.some.inj hst]
  · have hs2 := hkeep ops s2 hops hrun
    refine ⟨hs2, sweep_removes_epoch_session s2 id now hnow ?_⟩
    intro st hst
    rw [hs2] at hst
    rw [← Option.some.inj hst]

theorem registered_session_at_epoch_witness :
    ([97] : Uuid) ∉ keys SharedState.empty.client_id_2_state ∧
    runOps (SharedState.empty.RegisterNewTransmission [97] [1, 2])
        [.register [98] [3], .setLastSent [98] 0 29000000000]
      = some Scenario.storeTwo ∧
    find Scenario.storeTwo.client_id_2_state [97] = some ⟨[1, 2], 0, 0⟩ ∧
    find (Scenario.storeTwo.RemoveExpiredSessions 30000000001).client_id_2_state [97] = none ∧
    (Scenario.storeTwo.RemoveExpiredSessions 30000000001).SetTransmissionLastSent [97] 0
      30000000002 = none :=
  have h := (registered_session_at_epoch SharedState.empty [97] [1, 2] (by decide)).2.2.2.2
    [.register [98] [3], .setLastSent [98] 0 29000000000] Scenario.storeTwo 30000000001
    (by decide) (by decide) (by decide)
  ⟨by decide, by decide, h.1, h.2.1, h.2.2 0 30000000002⟩

end Server

namespace Common

theorem mix_lt (seed i : Nat) (h : seed < U32) : mix seed i < U32 := by
  unfold mix
  exact Nat.xor_lt_two_pow (n := 32) h (Nat.mod_lt _ (by decide))

theorem checksumLoop_lt (l : List Nat) : ∀ seed, seed < U32 → checksumLoop seed l < U32 := by
  induction l with
  | nil => intro seed h; exact h
  | cons v rest ih => intro seed h; exact ih _ (mix_lt seed v h)

theorem checksumLoop_append (l tail : List Nat) :
    ∀ seed, checksumLoop seed (l ++ tail) = checksumLoop (checksumLoop seed l) tail := by
  induction l with
  | nil => intro seed; rfl
  | cons v rest ih => intro seed; exact ih _

theorem ComputeChecksum_snoc (l : List Nat) (v : Nat) :
    ComputeChecksum (l ++ [v]) = mix (checksumLoop ((l.length + 1) % U32) l) v := by
  unfold ComputeChecksum
  rw [checksumLoop_append, List.length_append]
  rfl

theorem mix_injective (seed v w : Nat) (hv : v < U32) (hw : w < U32)
    (h : mix seed v = mix seed w) : v = w := by
  unfold mix at h
  have h2 : (v + 0x9e3779b9 + (seed <<< 6) % U32 + (seed >>> 2)) % U32
      = (w + 0x9e3779b9 + (seed <<< 6) % U32 + (seed >>> 2)) % U32 := Nat.xor_right_inj.mp h
  generalize (seed <<< 6) % U32 = a at h2
  generalize seed >>> 2 = b at h2
  simp only [U32] at h2 hv hw
  omega

theorem mix_surjective (seed c : Nat) (hs : seed < U32) (hc : c < U32) :
    ∃ v, v < U32 ∧ mix seed v = c := by
  have hx : seed ^^^ c < U32 := Nat.xor_lt_two_pow (n := 32) hs hc
  refine ⟨((seed ^^^ c) + (U32 - (0x9e3779b9 + (seed <<< 6) % U32 + (seed >>> 2)) % U32)) % U32,
    Nat.mod_lt _ (by decide), ?_⟩
  unfold mix
  have e : (((seed ^^^ c) + (U32 - (0x9e3779b9 + (seed <<< 6) % U32 + (seed >>> 2)) % U32))
      % U32 + 0x9e3779b9 + (seed <<< 6) % U32 + (seed >>> 2)) % U32 = seed ^^^ c := by
    generalize seed ^^^ c = x at hx ⊢
    generalize (seed <<< 6) % U32 = a
    generalize seed >>> 2 = b
    simp only [U32] at hx ⊢
    omega
  rw [e, Nat.xor_cancel_left]

end Common

namespace Client

theorem recvLoop_no_drop (fault : FaultInjection.Faults) (count : Nat) :
    ∀ (ws pre post : List Nat) (k got c : Nat) (rest : List Nat),
      ws.length = count →
      (∀ i, i < count → FaultInjection.FlakyConnection fault (k + i) = false) →
      recvLoop fault count pre.length k (ws ++ c :: rest) got (pre ++ post) =
        (if Common.ComputeChecksum (pre ++ received fault k ws ++ post.drop count) = c
          then ReturnCode.Success else ReturnCode.CorruptedDownload,
          pre ++ received fault k ws ++ post.drop count, got + count + 1) := by
  induction count with
  | zero =>
    intro ws pre post k got c rest hl _
    have hws : ws = [] := List.length_eq_zero.mp hl
    subst hws
    simp [recvLoop, received]
  | succ n ih =>
    intro ws pre post k got c rest hl hd
    cases ws with
    | nil => simp at hl
    | cons w ws1 =>
      have hl1 : ws1.length = n := by simpa using hl
      have hd0 : FaultInjection.FlakyConnection fault k = false := hd 0 (by omega)
      have h1 := ih ws1 (pre ++ [(w + FaultInjection.FlakyData fault k) % U32]) (post.drop 1)
        (k + 1) (got + 1) c rest hl1
        (fun i hi => by have := hd (i + 1) (by omega); rw [← this]; congr 1; omega)
      simp only [List.length_append, List.length_singleton, List.drop_drop] at h1
      simp only [List.cons_append, recvLoop, hd0, store_at_length, received]
      have e1 : pre ++ (w + FaultInjection.FlakyData fault k) % U32 :: List.drop 1 post
          = pre ++ [(w + FaultInjection.FlakyData fault k) % U32] ++ List.drop 1 post := by simp
      rw [e1, h1]
      have e2 : 1 + n = n + 1 := by omega
      have e3 : got + 1 + n + 1 = got + (n + 1) + 1 := by omega
      simp [e2, e3]

theorem received_clean_snoc (fault : FaultInjection.Faults) (A : List Nat) (x : Nat) :
    ∀ k, (∀ i, i < A.length → FaultInjection.FlakyData fault (k + i) = 0) →
      (∀ a ∈ A, a < U32) →
      received fault k (A ++ [x])
        = A ++ [(x + FaultInjection.FlakyData fault (k + A.length)) % U32] := by
  induction A with
  | nil => intro k _ _; rfl
  | cons a rest ih =>
    intro k hz h32
    have h0 : FaultInjection.FlakyData fault k = 0 := hz 0 (by simp)
    have ha : a < U32 := h32 a (by simp)
    have hr := ih (k + 1)
      (fun i hi => by
        have := hz (i + 1) (by simp; omega)
        rw [← this]; congr 1; omega)
      (fun b hb => h32 b (by simp [hb]))
    rw [show k + 1 + rest.length = k + (rest.length + 1) by omega] at hr
    show (a + FaultInjection.FlakyData fault k) % U32 :: received fault (k + 1) (rest ++ [x])
      = a :: (rest ++ [(x + FaultInjection.FlakyData fault (k + (rest.length + 1))) % U32])
    rw [h0, Nat.add_zero, Nat.mod_eq_of_lt ha, hr]

theorem attempt_no_drop (fault : FaultInjection.Faults) (stream : NetStream)
    (uuid : Server.Uuid) (N : Nat) (out : List Nat) (s c : Nat) (ws rest : List Nat)
    (hu : uuid.length ≤ 40)
    (hst : stream (loginRequest uuid N out) = some (s :: N :: (ws ++ c :: rest)))
    (hl : ws.length = N - s) (hs : s ≤ out.length)
    (hd : ∀ i, i < N - s → FaultInjection.FlakyConnection fault i = false) :
    ProcessTransmission fault stream uuid N out =
      ⟨if Common.ComputeChecksum (out.take s ++ received fault 0 ws ++ out.drop (s + (N - s))) = c
          then ReturnCode.Success else ReturnCode.CorruptedDownload,
        out.take s ++ received fault 0 ws ++ out.drop (s + (N - s)),
        [loginRequest uuid N out], N - s + 3⟩ := by
  have h := recvLoop_no_drop fault (N - s) ws (out.take s) (out.drop s) 0 2 c rest hl
    (fun i hi => by rw [Nat.zero_add]; exact hd i hi)
  rw [List.length_take, Nat.min_eq_left hs, List.take_append_drop, List.drop_drop] at h
  unfold ProcessTransmission
  rw [if_neg (Nat.not_lt.mpr hu)]
  simp only [hst, ne_eq, not_true_eq_false, if_false, h]
  have e : 2 + (N - s) + 1 = N - s + 3 := by omega
  rw [e]

end Client

namespace Server

theorem packets_last_only (env : Env) (init : List Nat) (last s : Nat)
    (hs : s ≤ init.length)
    (hz : ∀ j, j < init.length - s → FaultInjection.FlakyData env.fault j = 0)
    (h32 : ∀ v ∈ init, v < U32) :
    (List.range (init.length + 1 - s)).map (packetAt env (init ++ [last]) s 0)
      = ((init.drop s).map fun v => Protocal.Message.dataPacket ⟨v⟩) ++
        [.dataPacket ⟨(last + FaultInjection.FlakyData env.fault (init.length - s)) % U32⟩] := by
  rw [show init.length + 1 - s = (init.length - s) + 1 by omega, List.range_succ,
    List.map_append]
  congr 1
  · apply List.ext_getElem (by simp)
    intro i h1 h2
    have hi : i < init.length - s := by simpa using h1
    have hlt : s + i < init.length := by omega
    simp only [List.getElem_map, List.getElem_range, packetAt, hz i hi, Nat.add_zero,
      Nat.zero_add, List.getElem_drop, List.getD_append init [last] 0 (s + i) hlt,
      List.getD_eq_getElem init 0 hlt]
    rw [Nat.mod_eq_of_lt (h32 _ (List.getElem_mem _))]
  · simp only [List.map_cons, List.map_nil, packetAt, Nat.zero_add]
    rw [show s + (init.length - s) = init.length by omega]
    simp

end Server

theorem checksum_last_changed (init : List Nat) (last x : Nat) (hlast : last < U32)
    (hx : x < U32) (hne : x ≠ last) :
    Common.ComputeChecksum (init ++ [x]) ≠ Common.ComputeChecksum (init ++ [last]) := by
  intro h
  rw [Common.ComputeChecksum_snoc, Common.ComputeChecksum_snoc] at h
  exact hne (Common.mix_injective _ x last hx hlast h)

theorem transfer_last_corrupted (env : Server.Env) (fault : FaultInjection.Faults)
    (shared stored : Server.SharedState) (uuid : Server.Uuid) (init : List Nat) (last : Nat)
    (t : Server.Time) (m k : Nat)
    (hu : uuid.length ≤ 40) (hN : init.length + 1 < U32)
    (hres : Server.resolve env shared (uuid.takeWhile fun c => decide (c ≠ 0))
      (init.length + 1) = (⟨init ++ [last], t, m⟩, stored))
    (h32 : ∀ v ∈ init, v < U32) (hlast : last < U32) (hk : k ≤ init.length + 1)
    (hsf : min m k ≤ init.length)
    (hsc : env.fault.g_flaky_connection = 0) (hcc : fault.g_flaky_connection = 0)
    (hs : ∀ i, env.send_ok i = true)
    (hclean : ∀ j, j < init.length - min m k →
      FaultInjection.FlakyData env.fault j = 0 ∧ FaultInjection.FlakyData fault j = 0)
    (hbad : (FaultInjection.FlakyData env.fault (init.length - min m k)
      + FaultInjection.FlakyData fault (init.length - min m k)) % U32 ≠ 0) :
    Client.ProcessTransmission fault (handlerStream env shared) uuid (init.length + 1)
        ((init ++ [last]).take k) =
      ⟨.CorruptedDownload,
        init ++ [(last + FaultInjection.FlakyData env.fault (init.length - min m k)
          + FaultInjection.FlakyData fault (init.length - min m k)) % U32],
        [Client.loginRequest uuid (init.length + 1) ((init ++ [last]).take k)],
        init.length + 1 - min m k + 3⟩ := by
  have hkl : ((init ++ [last]).take k).length = k := by
    rw [List.length_take, List.length_append, List.length_singleton]
    exact Nat.min_eq_left hk
  have hkey := Server.uuidOf_loginRequest uuid (init.length + 1) ((init ++ [last]).take k) hu
  have hN' : (Client.loginRequest uuid (init.length + 1) ((init ++ [last]).take k)).N
      = init.length + 1 := rfl
  have hseen : (Client.loginRequest uuid (init.length + 1)
      ((init ++ [last]).take k)).packets_seen = k := by
    show ((init ++ [last]).take k).length % U32 = k
    rw [hkl]
    exact Nat.mod_eq_of_lt (by omega)
  have hres' : Server.resolve env shared
      (Server.uuidOf (Client.loginRequest uuid (init.length + 1) ((init ++ [last]).take k)))
      (Client.loginRequest uuid (init.length + 1) ((init ++ [last]).take k)).N
      = (⟨init ++ [last], t, m⟩, stored) := by
    rw [hkey, hN']; exact hres
  obtain ⟨sh2, h2, -, -⟩ := Server.ProcessTransmission_no_drop env shared
    (Client.loginRequest uuid (init.length + 1) ((init ++ [last]).take k))
    (by rw [hres', hN']; simp) (fun i _ => hs i)
    (fun i _ => FaultInjection.FlakyConnection_of_knob_zero env.fault hsc i)
  rw [hres'] at h2
  simp only [hN', hseen] at h2
  rw [Server.packets_last_only env init last (min m k) hsf (fun j hj => (hclean j hj).1) h32,
    Nat.mod_eq_of_lt hN] at h2
  have hsent := congrArg Server.Result.sent h2
  simp only [] at hsent
  have hcl := Client.attempt_no_drop fault (handlerStream env shared) uuid
    (init.length + 1) ((init ++ [last]).take k) (min m k)
    (Common.ComputeChecksum (init ++ [last]))
    (init.drop (min m k) ++
      [(last + FaultInjection.FlakyData env.fault (init.length - min m k)) % U32]) [] hu
    (by
      unfold handlerStream
      rw [hsent, List.append_assoc]
      simp only [Protocal.wire, Protocal.Message.words, Protocal.wire_packets]
      simp)
    (by simp; omega)
    (by rw [hkl]; exact Nat.min_le_right _ _)
    (fun i _ => FaultInjection.FlakyConnection_of_knob_zero fault hcc i)
  have hrecv := Client.received_clean_snoc fault (init.drop (min m k))
    ((last + FaultInjection.FlakyData env.fault (init.length - min m k)) % U32) 0
    (fun i hi => by
      rw [Nat.zero_add]
      exact (hclean i (by simpa using hi)).2)
    (fun a ha => h32 a (List.mem_of_mem_drop ha))
  rw [Nat.zero_add, List.length_drop] at hrecv
  have htake : List.take (min m k) (List.take k (init ++ [last])) = init.take (min m k) := by
    rw [List.take_take, Nat.min_eq_left (Nat.min_le_right m k),
      List.take_append_of_le_length hsf]
  have hdrop : List.drop (min m k + (init.length + 1 - min m k))
      (List.take k (init ++ [last])) = [] := by
    apply List.drop_eq_nil_of_le
    rw [hkl]
    omega
  have hval : ((last + FaultInjection.FlakyData env.fault (init.length - min m k)) % U32
      + FaultInjection.FlakyData fault (init.length - min m k)) % U32
      = (last + FaultInjection.FlakyData env.fault (init.length - min m k)
        + FaultInjection.FlakyData fault (init.length - min m k)) % U32 := by
    simp only [U32]
    omega
  rw [hrecv, htake, hdrop, List.append_nil, ← List.append_assoc, List.take_append_drop,
    hval] at hcl
  rw [hcl]
  have hne : Common.ComputeChecksum (init ++
      [(last + FaultInjection.FlakyData env.fault (init.length - min m k)
        + FaultInjection.FlakyData fault (init.length - min m k)) % U32])
      ≠ Common.ComputeChecksum (init ++ [last]) := by
    apply checksum_last_changed init last _ hlast (Nat.mod_lt _ (by decide))
    simp only [U32] at hbad hlast ⊢
    omega
  rw [if_neg hne]

/-- C11. For every prefix, `v -> ComputeChecksum(prefix ++ [v])` is injective on 32-bit
values, takes 32-bit values and reaches each of them, so it is a bijection.  Hence,
for a payload `init ++ [last]` and a delta that is nonzero modulo `2^32`, adding the
delta to the last element changes the checksum; and a transfer (new or resumed, with no
connection drop and no transport failure) in which the injected deltas are all zero
except on the final data packet, where the server's and the client's deltas sum to a
nonzero value modulo `2^32`, ends with `Client::ProcessTransmission` returning
`CorruptedDownload`, not `Success`, its payload being the original with the last
element shifted by that sum. -/
theorem last_packet_corruption_detected :
    (∀ (l : List Nat) (v w : Nat), v < U32 → w < U32 →
      Common.ComputeChecksum (l ++ [v]) = Common.ComputeChecksum (l ++ [w]) → v = w) ∧
    (∀ (l : List Nat) (c : Nat), c < U32 →
      ∃ v, v < U32 ∧ Common.ComputeChecksum (l ++ [v]) = c) ∧
    (∀ (l : List Nat) (v : Nat), Common.ComputeChecksum (l ++ [v]) < U32) ∧
    (∀ (init : List Nat) (last delta : Nat), last < U32 → delta % U32 ≠ 0 →
      Common.ComputeChecksum (init ++ [(last + delta) % U32])
        ≠ Common.ComputeChecksum (init ++ [last])) ∧
    (∀ (env : Server.Env) (fault : FaultInjection.Faults) (shared stored : Server.SharedState)
        (uuid : Server.Uuid) (init : List Nat) (last : Nat) (t : Server.Time) (m k : Nat),
      uuid.length ≤ 40 → init.length + 1 < U32 →
      Server.resolve env shared (uuid.takeWhile fun c => decide (c ≠ 0)) (init.length + 1)
        = (⟨init ++ [last], t, m⟩, stored) →
      (∀ v ∈ init, v < U32) → last < U32 → k ≤ init.length + 1 → min m k ≤ init.length →
      env.fault.g_flaky_connection = 0 → fault.g_flaky_connection = 0 →
      (∀ i, env.send_ok i = true) →
      (∀ j, j < init.length - min m k →
        FaultInjection.FlakyData env.fault j = 0 ∧ FaultInjection.FlakyData fault j = 0) →
      (FaultInjection.FlakyData env.fault (init.length - min m k)
        + FaultInjection.FlakyData fault (init.length - min m k)) % U32 ≠ 0 →
      (Client.ProcessTransmission fault (handlerStream env shared) uuid (init.length + 1)
        ((init ++ [last]).take k)).code = .CorruptedDownload ∧
      (Client.ProcessTransmission fault (handlerStream env shared) uuid (init.length + 1)
        ((init ++ [last]).take k)).code ≠ .Success ∧
      (Client.ProcessTransmission fault (handlerStream env shared) uuid (init.length + 1)
        ((init ++ [last]).take k)).out_payload =
        init ++ [(last + FaultInjection.FlakyData env.fault (init.length - min m k)
          + FaultInjection.FlakyData fault (init.length - min m k)) % U32]) := by
  have hseed : ∀ l : List Nat, Common.checksumLoop ((l.length + 1) % U32) l < U32 :=
    fun l => Common.checksumLoop_lt l _ (Nat.mod_lt _ (by decide))
  refine ⟨fun l v w hv hw h => ?_, fun l c hc => ?_, fun l v => ?_,
    fun init last delta hlast hdelta => ?_, ?_⟩
  · rw [Common.ComputeChecksum_snoc, Common.ComputeChecksum_snoc] at h
    exact Common.mix_injective _ v w hv hw h
  · obtain ⟨v, hv, hm⟩ := Common.mix_surjective _ c (hseed l) hc
    exact ⟨v, hv, by rw [Common.ComputeChecksum_snoc]; exact hm⟩
  · rw [Common.ComputeChecksum_snoc]
    exact Common.mix_lt _ v (hseed l)
  · apply checksum_last_changed init last _ hlast (Nat.mod_lt _ (by decide))
    simp only [U32] at hdelta hlast ⊢
    omega
  · intro env fault shared stored uuid init last t m k hu hN hres h32 hlast hk hsf hsc hcc hs
      hclean hbad
    rw [transfer_last_corrupted env fault shared stored uuid init last t m k hu hN hres h32
      hlast hk hsf hsc hcc hs hclean hbad]
    exact ⟨rfl, fun h => Client.ReturnCode.noConfusion h, rfl⟩

theorem last_packet_corruption_detected_witness :
    FaultInjection.FlakyData Scenario.envCorruptLast.fault 2 = 9 ∧
    (Server.ProcessTransmission Scenario.envCorruptLast Server.SharedState.empty
        (some (Client.loginRequest [97] 3 []))).sent =
      [.loginConfirmed ⟨0, 3⟩, .dataPacket ⟨7⟩, .dataPacket ⟨17⟩, .dataPacket ⟨36⟩,
        .dataComplete ⟨Common.ComputeChecksum [7, 17, 27]⟩] ∧
    (Client.ProcessTransmission FaultInjection.disabled
      (handlerStream Scenario.envCorruptLast Server.SharedState.empty) [97] 3 []).code
      = .CorruptedDownload ∧
    (Client.ProcessTransmission FaultInjection.disabled
      (handlerStream Scenario.envCorruptLast Server.SharedState.empty) [97] 3 []).out_payload
      = [7, 17, 36] :=
  have h := last_packet_corruption_detected.2.2.2.2 Scenario.envCorruptLast
    FaultInjection.disabled Server.SharedState.empty
    (Server.SharedState.empty.RegisterNewTransmission [97] [7, 17, 27]) [97] [7, 17] 27 0 0 0
    (by decide) (by decide) (by decide) (by decide) (by decide) (by decide) (by decide)
    rfl rfl (fun _ => rfl)
    (fun j hj => by
      have hj2 : j < 2 := hj
      have hc : j = 0 ∨ j = 1 := by omega
      rcases hc with rfl | rfl <;> decide)
    (by decide)
  ⟨by decide, by decide, h.1, h.2.2.trans (by decide)⟩
